import Mathlib

/-!
# Registry tool: resource names, listing, manifest upload, proto upload, labels

A shallow embedding of the parts of the registry command-line tool that the
verified properties talk about.

* Go strings are `String`; the character-level work is done on `String.data`.
* A Go `error` is `Option Error` (`none` is the nil error).
* Registry calls are functions of an explicit client state, and every call a
  command issues is recorded in a trace.
-/

namespace Registry

/-! ## Strings -/

/-- Worker of `splitSlash`: the first segment and the remaining segments. -/
def splitAux : List Char → List Char × List (List Char)
  | [] => ([], [])
  | c :: cs =>
    if c = '/' then ([], (splitAux cs).1 :: (splitAux cs).2)
    else (c :: (splitAux cs).1, (splitAux cs).2)

/-- Go `strings.Split(s, "/")` on the characters of `s`: never empty, the
empty string gives one empty segment. -/
def splitSlash (cs : List Char) : List (List Char) :=
  (splitAux cs).1 :: (splitAux cs).2

/-- Go `strings.Split(s, "/")`. -/
def Split (s : String) : List String :=
  (splitSlash s.data).map String.mk

/-! ## Resource names (package `names`) -/

/-- Modelled from the spec: the identifier grammar of package `names`, whose
source file is not part of the sources at hand (only `names_test.go` is). The
spec asks that each ID match "an identifier grammar" and the test table
accepts letters, digits, `-` and `.` (`1-2-3`, `openapi.yaml`,
`test-artifact`) and rejects the empty ID and a space; `_` is taken as an
identifier character as well. -/
def isIdChar (c : Char) : Bool :=
  c.isAlphanum || c == '-' || c == '_' || c == '.'

/-- Modelled from the spec: the characters of a revision suffix
(`openapi.yaml@1234567890abcdef` in the test table). -/
def isRevChar (c : Char) : Bool :=
  c.isAlphanum || c == '-'

/-- Modelled from the spec: an ID is one or more identifier characters. The
wildcard `-` has this shape, so it is accepted wherever an ID is. -/
def validId (s : List Char) : Bool :=
  !s.isEmpty && s.all isIdChar

/-- Modelled from the spec: the last segment of a spec name,
`<id>[@<revision>]`; the result is the ID without the revision suffix. -/
def specId (s : List Char) : Option (List Char) :=
  if validId (s.takeWhile (· != '@')) then
    match s.dropWhile (· != '@') with
    | [] => some (s.takeWhile (· != '@'))
    | _ :: r =>
      if !r.isEmpty && r.all isRevChar then some (s.takeWhile (· != '@')) else none
  else none

/-- One segment of a resource-name shape (spec section 4.1). -/
inductive Seg where
  | lit (s : String)
  | id
  | idRev
  deriving DecidableEq, Repr

/-- Modelled from the spec: match the segments of a path against a shape,
segment by segment, and collect the IDs. A literal segment must be equal, an
ID segment must be a valid ID. -/
def matchSegs : List Seg → List (List Char) → Option (List String)
  | [], [] => some []
  | Seg.lit s :: ps, x :: xs =>
    if x = s.data then matchSegs ps xs else none
  | Seg.id :: ps, x :: xs =>
    if validId x then (matchSegs ps xs).map (fun m => String.mk x :: m) else none
  | Seg.idRev :: ps, x :: xs =>
    match specId x with
    | some i => (matchSegs ps xs).map (fun m => String.mk i :: m)
    | none => none
  | _, _ => none

/-- A compiled name pattern: the alternative shapes it accepts. -/
structure Regexp where
  alts : List (List Seg)
  deriving DecidableEq, Repr

/-- Modelled from the spec: `re.FindStringSubmatch(path)` for the anchored
patterns of package `names`. `none` is the nil result; on a match, index 0 is
the whole path and the following entries are the captured IDs in path order
(`export-csv.go` reads the api, version and spec IDs of a spec name at
indices 2, 3 and 4). -/
def FindStringSubmatch (re : Regexp) (path : String) : Option (List String) :=
  (re.alts.findSome? fun shape => matchSegs shape (splitSlash path.data)).map
    (fun m => path :: m)

/-- Go `re.MatchString(path)`. -/
def MatchString (re : Regexp) (path : String) : Bool :=
  (FindStringSubmatch re path).isSome

/-- Shape of a project name. -/
def projectShape : List Seg := [Seg.lit "projects", Seg.id]
/-- Shape of an api name. -/
def apiShape : List Seg := projectShape ++ [Seg.lit "apis", Seg.id]
/-- Shape of a version name. -/
def versionShape : List Seg := apiShape ++ [Seg.lit "versions", Seg.id]
/-- Shape of a spec name, with its optional revision suffix. -/
def specShape : List Seg := versionShape ++ [Seg.lit "specs", Seg.idRev]

/-- Modelled from the spec: `names.ProjectsRegexp()`, absent from the sources. -/
def ProjectsRegexp : Regexp := ⟨[[Seg.lit "projects"]]⟩
/-- Modelled from the spec: `names.ProjectRegexp()`, absent from the sources. -/
def ProjectRegexp : Regexp := ⟨[projectShape]⟩
/-- Modelled from the spec: `names.ApisRegexp()`, absent from the sources. -/
def ApisRegexp : Regexp := ⟨[projectShape ++ [Seg.lit "apis"]]⟩
/-- Modelled from the spec: `names.ApiRegexp()`, absent from the sources. -/
def ApiRegexp : Regexp := ⟨[apiShape]⟩
/-- Modelled from the spec: `names.VersionsRegexp()`, absent from the sources. -/
def VersionsRegexp : Regexp := ⟨[apiShape ++ [Seg.lit "versions"]]⟩
/-- Modelled from the spec: `names.VersionRegexp()`, absent from the sources. -/
def VersionRegexp : Regexp := ⟨[versionShape]⟩
/-- Modelled from the spec: `names.SpecsRegexp()`, absent from the sources. -/
def SpecsRegexp : Regexp := ⟨[versionShape ++ [Seg.lit "specs"]]⟩
/-- Modelled from the spec: `names.SpecRegexp()`, absent from the sources. -/
def SpecRegexp : Regexp := ⟨[specShape]⟩

/-- The shapes of the resources an artifact can belong to: the test table of
`names_test.go` accepts artifacts under a project, an api, a version and a
spec. -/
def parentShapes : List (List Seg) :=
  [projectShape, apiShape, versionShape, specShape]

/-- Modelled from the spec: `names.ArtifactsRegexp()`, absent from the sources. -/
def ArtifactsRegexp : Regexp :=
  ⟨parentShapes.map fun p => p ++ [Seg.lit "artifacts"]⟩
/-- Modelled from the spec: `names.ArtifactRegexp()`, absent from the sources. -/
def ArtifactRegexp : Regexp :=
  ⟨parentShapes.map fun p => p ++ [Seg.lit "artifacts", Seg.id]⟩

/-- One group of the table of `TestResourceNames`: a pattern, the paths it
must accept and the paths it must reject. -/
structure NameGroup where
  regexp : Regexp
  pass : List String
  fail : List String

/-- The table of `TestResourceNames` (names_test.go lines 24-168), with the
placeholder `LOCATION` replaced by the location segment, which is empty: the
names built in `upload-protos.go` and `upload-manifest.go` have none. -/
def nameGroups : List NameGroup :=
  [ { regexp := ProjectsRegexp
      pass := ["projects"]
      fail := ["-", "project", "organizations", "apis"] },
    { regexp := ProjectRegexp
      pass := ["projects/google", "projects/-"]
      fail := ["-"] },
    { regexp := ApisRegexp
      pass := ["projects/google/apis", "projects/-/apis"]
      fail := ["-"] },
    { regexp := ApiRegexp
      pass := ["projects/google/apis/sample", "projects/-/apis/-", "projects/123/apis/abc",
        "projects/1-2-3/apis/abc"]
      fail := ["-", "invalid", "projects//apis/123", "projects/123/apis/",
        "projects/123/invalid/123", "projects/123/apis/ 123"] },
    { regexp := VersionsRegexp
      pass := ["projects/google/apis/sample/versions", "projects/-/apis/-/versions"]
      fail := ["-"] },
    { regexp := VersionRegexp
      pass := ["projects/google/apis/sample/versions/v1", "projects/-/apis/-/versions/-",
        "projects/123/apis/abc/versions/123", "projects/1-2-3/apis/abc/versions/123"]
      fail := ["-", "invalid", "projects//apis/123", "projects/123/apis/",
        "projects/123/invalid/123", "projects/123/apis/ 123"] },
    { regexp := SpecsRegexp
      pass := ["projects/google/apis/sample/versions/v1/specs",
        "projects/-/apis/-/versions/-/specs"]
      fail := ["-"] },
    { regexp := SpecRegexp
      pass := ["projects/google/apis/sample/versions/v1/specs/openapi.yaml@1234567890abcdef",
        "projects/google/apis/sample/versions/v1/specs/openapi.yaml",
        "projects/-/apis/-/versions/-/specs/-",
        "projects/123/apis/abc/versions/123/specs/abc",
        "projects/1-2-3/apis/abc/versions/123/specs/abc"]
      fail := ["-", "invalid", "projects//apis/123", "projects/123/apis/",
        "projects/123/invalid/123", "projects/123/apis/ 123"] },
    { regexp := ArtifactsRegexp
      pass := ["projects/google/apis/sample/versions/v1/specs/openapi.yaml/artifacts",
        "projects/google/apis/sample/versions/v1/artifacts",
        "projects/google/apis/sample/artifacts",
        "projects/google/artifacts"]
      fail := ["-"] },
    { regexp := ArtifactRegexp
      pass := ["projects/google/apis/sample/versions/v1/specs/openapi.yaml/artifacts/test-artifact",
        "projects/google/apis/sample/versions/v1/artifacts/test-artifact",
        "projects/google/apis/sample/artifacts/test-artifact",
        "projects/google/artifacts/test-artifact"]
      fail := ["-"] } ]

/-- Go `TestResourceNames`: true when no `t.Errorf` is reached. -/
def TestResourceNames : Bool :=
  nameGroups.all fun g =>
    g.pass.all (fun path => (FindStringSubmatch g.regexp path).isSome) &&
    g.fail.all (fun path => (FindStringSubmatch g.regexp path).isNone)

/-- Go `strings.Join(parts, sep)` on character lists. -/
def joinSep (sep : List Char) : List (List Char) → List Char
  | [] => []
  | [x] => x
  | x :: y :: r => x ++ sep ++ joinSep sep (y :: r)

/-! ## Errors -/

/-- The gRPC status code carried by an error; `Unknown` is the code of an
error that is not a status error (one made by `fmt.Errorf`). -/
inductive Code where
  | NotFound
  | AlreadyExists
  | PermissionDenied
  | Unavailable
  | Unknown
  deriving DecidableEq, Repr

/-- A non-nil Go `error`. The nil error is `none : Option Error`. -/
structure Error where
  code : Code
  msg : String
  deriving DecidableEq, Repr

/-- Modelled from the spec: `core.NotFound(err)`, absent from the sources; it
tells whether `err` is the registry's `NotFound` answer (spec sections 6, 7)
and is false on the nil error. -/
def NotFound (err : Option Error) : Bool :=
  match err with
  | some e => e.code == Code.NotFound
  | none => false

/-- Modelled from the spec: `core.AlreadyExists(err)`, absent from the
sources; it tells whether `err` is the registry's `AlreadyExists` answer and
is false on the nil error. -/
def AlreadyExists (err : Option Error) : Bool :=
  match err with
  | some e => e.code == Code.AlreadyExists
  | none => false

/-- Byte strings. -/
abbrev Bytes := List UInt8

/-! ## Listing resources (`controller/list.go`) -/

/-- The listing calls of package `core` used by `ListResources`, absent from
the sources and taken as given. Each receives the submatch `m` and the
filter; the first component is what the handler appends to `result`, the
second the error returned. -/
structure Lister (ρ : Type) where
  ListAPIs : List String → String → List ρ × Option Error
  ListSpecs : List String → String → List ρ × Option Error
  ListArtifacts : List String → String → Bool → List ρ × Option Error

/-- First half of `ListResources` (list.go lines 29-35): the collection
names. Without a match `result` and `err` keep their zero values. -/
def listCollections {ρ : Type} (c : Lister ρ) (pattern filter : String) :
    List ρ × Option Error :=
  match FindStringSubmatch ApisRegexp pattern with
  | some m => c.ListAPIs m filter
  | none =>
    match FindStringSubmatch SpecsRegexp pattern with
    | some m => c.ListSpecs m filter
    | none =>
      match FindStringSubmatch ArtifactsRegexp pattern with
      | some m => c.ListArtifacts m filter false
      | none => ([], none)

/-- Second half of `ListResources` (list.go lines 38-44): the resource names.
A matching branch appends to `result` and assigns `err`; without a match both
are left as they were. -/
def listNamed {ρ : Type} (c : Lister ρ) (pattern filter : String)
    (acc : List ρ × Option Error) : List ρ × Option Error :=
  match FindStringSubmatch ApiRegexp pattern with
  | some m => (acc.1 ++ (c.ListAPIs m filter).1, (c.ListAPIs m filter).2)
  | none =>
    match FindStringSubmatch SpecRegexp pattern with
    | some m => (acc.1 ++ (c.ListSpecs m filter).1, (c.ListSpecs m filter).2)
    | none =>
      match FindStringSubmatch ArtifactRegexp pattern with
      | some m =>
        (acc.1 ++ (c.ListArtifacts m filter false).1, (c.ListArtifacts m filter false).2)
      | none => acc

/-- Go `ListResources(ctx, client, pattern, filter)`. The nil slice is the
empty list. -/
def ListResources {ρ : Type} (c : Lister ρ) (pattern filter : String) :
    List ρ × Option Error :=
  let r := listNamed c pattern filter (listCollections c pattern filter)
  if r.2 ≠ none then ([], r.2) else (r.1, r.2)

/-- A lister whose every call succeeds and lists nothing. -/
def emptyLister : Lister String :=
  { ListAPIs := fun _ _ => ([], none)
    ListSpecs := fun _ _ => ([], none)
    ListArtifacts := fun _ _ _ => ([], none) }

/-! ## Manifests (`controller/manifest-reader.go`, `cmd/upload-manifest.go`) -/

/-- Go `rpc.Dependency`. -/
structure Dependency where
  Pattern : String
  Filter : String
  deriving DecidableEq, Repr

/-- Go `rpc.GeneratedResource`. -/
structure GeneratedResource where
  Pattern : String
  Filter : String
  Dependencies : List Dependency
  Action : String
  deriving DecidableEq, Repr

/-- Go `rpc.Manifest`. -/
structure Manifest where
  Name : String
  GeneratedResources : List GeneratedResource
  deriving DecidableEq, Repr

/-- The file system and the decoding libraries `ReadManifestProto` calls. -/
structure ManifestFiles where
  /-- Go `ioutil.ReadFile` -/
  ReadFile : String → Except Error Bytes
  /-- Go `yaml2.YAMLToJSON`: the bytes and the error -/
  YAMLToJSON : Bytes → Bytes × Option Error
  /-- Go `protojson.Unmarshal` into a fresh manifest -/
  Unmarshal : Bytes → Except Error Manifest

/-- Go `fmt.Errorf("in file %q: %v", filename, err)` (the escaping done by
`%q` inside the file name is left out). -/
def inFileError (filename : String) (err : Error) : Error :=
  ⟨Code.Unknown, "in file \"" ++ filename ++ "\": " ++ err.msg⟩

/-- Go `ReadManifestProto(filename)`. The error of `YAMLToJSON` is
overwritten by the one of `protojson.Unmarshal` before it is looked at. -/
def ReadManifestProto (fs : ManifestFiles) (filename : String) : Except Error Manifest :=
  match fs.ReadFile filename with
  | .error e => .error e
  | .ok yamlBytes =>
    match fs.Unmarshal (fs.YAMLToJSON yamlBytes).1 with
    | .error e => .error (inFileError filename e)
    | .ok m => .ok m

/-- Modelled from the spec: a target pattern references a supported resource
kind when it is accepted, as written or below a project, by one of the six
patterns `ListResources` dispatches on (spec sections 4.1, 4.2). No such
check exists in the sources. -/
def supportedPattern (p : String) : Bool :=
  [ApisRegexp, SpecsRegexp, ArtifactsRegexp, ApiRegexp, SpecRegexp, ArtifactRegexp].any
    fun re => MatchString re p || MatchString re ("projects/-/" ++ p)

/-- Modelled from the spec: a source expression is `$resource.<relation>` for
a relation of the resource hierarchy (spec section 4.2). No such check exists
in the sources. -/
def supportedSource (s : String) : Bool :=
  ["$resource.api", "$resource.version", "$resource.spec", "$resource.artifact"].any
    fun r => r.data.isPrefixOf s.data

/-- Modelled from the spec: the structural validity of a manifest (spec
section 4.2): every generated resource's pattern and every dependency's
source expression references a supported resource kind. -/
def validManifest (m : Manifest) : Bool :=
  m.GeneratedResources.all fun g =>
    supportedPattern g.Pattern && g.Dependencies.all fun d => supportedSource d.Pattern

/-- Go `rpc.Artifact`, with the fields the upload sets. -/
structure Artifact where
  Name : String
  MimeType : String
  Contents : Bytes
  deriving DecidableEq, Repr

/-- What the manifest upload command calls besides `ReadManifestProto`. -/
structure UploadEnv where
  files : ManifestFiles
  /-- Go `proto.Marshal` -/
  Marshal : Manifest → Bytes × Option Error
  /-- Go `connection.NewClient`: its error, nil when the client is made -/
  NewClient : Option Error
  /-- Go `core.MimeTypeForMessageType`, absent from the sources -/
  MimeTypeForMessageType : String → String
  /-- Go `core.SetArtifact` on the client -/
  SetArtifact : Artifact → Option Error

/-- How a command ends: `log.Fatal` (exit status 1) or a normal return. -/
inductive Outcome where
  | fatal (msg : String)
  | done
  deriving DecidableEq, Repr

/-- The `Run` function of `uploadManifestCmd`, given the arguments (at least
one, by `cobra.MinimumNArgs(1)`) and the value of `--project_id`; the result
is how the command ends and the `SetArtifact` calls it has issued. -/
def uploadManifestCmd (env : UploadEnv) (args : List String) (project : String) :
    Outcome × List Artifact :=
  match args with
  | [] => (Outcome.fatal "requires at least 1 arg(s)", [])
  | manifestPath :: _ =>
    if manifestPath = "" then (Outcome.fatal "Please provide manifest_path", [])
    else if project = "" then (Outcome.fatal "Please specify a project", [])
    else
      match ReadManifestProto env.files manifestPath with
      | .error e => (Outcome.fatal e.msg, [])
      | .ok manifest =>
        match env.NewClient with
        | some e => (Outcome.fatal e.msg, [])
        | none =>
          match env.SetArtifact
            { Name := "projects/" ++ project ++ "/artifacts/" ++ manifest.Name
              MimeType := env.MimeTypeForMessageType
                "google.cloud.apigee.registry.applications.v1alpha1.Manifest"
              Contents := (env.Marshal manifest).1 } with
          | some e =>
            (Outcome.fatal e.msg,
              [{ Name := "projects/" ++ project ++ "/artifacts/" ++ manifest.Name
                 MimeType := env.MimeTypeForMessageType
                   "google.cloud.apigee.registry.applications.v1alpha1.Manifest"
                 Contents := (env.Marshal manifest).1 }])
          | none =>
            (Outcome.done,
              [{ Name := "projects/" ++ project ++ "/artifacts/" ++ manifest.Name
                 MimeType := env.MimeTypeForMessageType
                   "google.cloud.apigee.registry.applications.v1alpha1.Manifest"
                 Contents := (env.Marshal manifest).1 }])

/-- A manifest whose pattern and source expression name no resource kind. -/
def badManifest : Manifest :=
  { Name := "bad"
    GeneratedResources :=
      [{ Pattern := "invalid", Filter := "", Action := "compute lint $source0",
         Dependencies := [{ Pattern := "invalid", Filter := "" }] }] }

/-- The manifest of `TestManifestUpload`. -/
def testManifest : Manifest :=
  { Name := "test-manifest"
    GeneratedResources :=
      [{ Pattern := "apis/-/versions/-/specs/-/artifacts/lint-gnostic", Filter := "",
         Action := "compute lint $source0 --linter gnostic",
         Dependencies :=
           [{ Pattern := "$resource.spec", Filter := "mime_type.contains('openapi')" }] }] }

/-- A file system with manifest files: `bad.yaml` decodes to `badManifest`,
any other readable file to `testManifest`; `missing.yaml` does not exist. -/
def demoFiles : ManifestFiles :=
  { ReadFile := fun f =>
      if f = "missing.yaml" then .error ⟨Code.Unknown, "open missing.yaml: no such file"⟩
      else if f = "bad.yaml" then .ok [1] else .ok [2]
    YAMLToJSON := fun b => (b, none)
    Unmarshal := fun b => if b = [1] then .ok badManifest else .ok testManifest }

/-- Go `proto.Unmarshal` for the encoding used by `demoEnv`. -/
def demoUnmarshal (b : Bytes) : Option Manifest :=
  if b = [7] then some testManifest else if b = [8] then some badManifest else none

/-- An environment for the upload command over `demoFiles`. -/
def demoEnv : UploadEnv :=
  { files := demoFiles
    Marshal := fun m => (if m = testManifest then [7] else [8], none)
    NewClient := none
    MimeTypeForMessageType := fun t => "application/octet-stream;type=" ++ t
    SetArtifact := fun _ => none }

/-! ## Uploading protos (`cmd/upload-protos.go`) -/

/-- Go `strings.TrimPrefix(s, pre)`. -/
def TrimPrefix (s pre : String) : String :=
  if pre.data.isPrefixOf s.data then String.mk (s.data.drop pre.data.length) else s

/-- Go `strings.Join(parts, sep)`. -/
def Join (parts : List String) (sep : String) : String :=
  String.mk (joinSep sep.data (parts.map String.data))

/-- Go `strings.Replace(s, old, new, -1)` for one-character `old` and `new`. -/
def Replace (s : String) (old new : Char) : String :=
  String.mk (s.data.map fun c => if c = old then new else c)

/-- Go `rpcpb.Spec`, with the fields the upload sets. -/
structure Spec where
  Style : String
  Filename : String
  Contents : Bytes
  deriving DecidableEq, Repr

/-- The registry calls an upload task issues, each with its request. -/
inductive Call where
  | GetApi (Name : String)
  | CreateApi (Parent ApiId DisplayName : String)
  | GetVersion (Name : String)
  | CreateVersion (Parent VersionId : String)
  | GetSpec (Name : String)
  | CreateSpec (Parent SpecId : String) (Spec : Spec)
  deriving DecidableEq, Repr

/-- Whether a call is one of the three `Create` calls. -/
def Call.isCreate : Call → Bool
  | Call.CreateApi _ _ _ => true
  | Call.CreateVersion _ _ => true
  | Call.CreateSpec _ _ _ => true
  | _ => false

/-- The registry behind `connection.Client`: a call answers with an error
(nil on success) and leaves the registry in a new state. The state is
arbitrary, so other clients may change the registry between two calls. The
response messages are only logged by the task and are left out. -/
structure Client (σ : Type) where
  call : σ → Call → Option Error × σ

/-- What `log.Printf` writes during an upload task. -/
inductive LogLine where
  | ids (apiID versionID : String)
  | created
  | alreadyExists (parent id : String)
  | failedToCreate (parent id : String) (err : Error)
  deriving DecidableEq, Repr

/-- The state an upload task runs in: the registry, the calls issued so far
(oldest first) and the log written so far. -/
structure World (σ : Type) where
  registry : σ
  trace : List Call
  log : List LogLine

/-- Issue one registry call. -/
def World.issue {σ : Type} (w : World σ) (c : Client σ) (r : Call) : Option Error × World σ :=
  ((c.call w.registry r).1,
    { registry := (c.call w.registry r).2, trace := w.trace ++ [r], log := w.log })

/-- Write one log line. -/
def World.say {σ : Type} (w : World σ) (l : LogLine) : World σ :=
  { registry := w.registry, trace := w.trace, log := w.log ++ [l] }

/-- The three-way branch after each `Create` call (lines 159-166, 185-192,
225-233): every outcome is logged, none is returned. -/
def logCreate (err : Option Error) (parent id : String) : LogLine :=
  match err with
  | none => LogLine.created
  | some e =>
    if AlreadyExists (some e) then LogLine.alreadyExists parent id
    else LogLine.failedToCreate parent id e

/-- Go `uploadProtoTask` without its context and client. -/
structure uploadProtoTask where
  projectID : String
  path : String
  directory : String
  apiID : String
  versionID : String
  specID : String
  deriving DecidableEq, Repr

/-- One call of the function given to `filepath.Walk`: the path, whether
`info.IsDir()` holds, and the error the walk reports for the path. -/
structure WalkEntry where
  path : String
  isDir : Bool
  err : Option Error
  deriving DecidableEq, Repr

/-- What adding one file to the archive comes to (`addFileToZip`): a failure
before the entry is created (`os.Open`, `Stat`, `FileInfoHeader`,
`CreateHeader`), a failure of `io.Copy` after some bytes, or the whole file. -/
inductive FileRead where
  | failed (e : Error)
  | cut (written : Bytes) (e : Error)
  | whole (data : Bytes)
  deriving DecidableEq, Repr

/-- One entry of a zip archive: its name and contents (method `Deflate`). -/
structure ZipEntry where
  Name : String
  Contents : Bytes
  deriving DecidableEq, Repr

/-- The file system and the zip library, as the upload of protos uses them. -/
structure ProtoFiles where
  /-- Go `filepath.Walk(root, fn)`: the calls of `fn`, in walk order, for as
  long as `fn` returns nil -/
  Walk : String → List WalkEntry
  /-- What reading a file gives -/
  Open : String → FileRead
  /-- The bytes of an archive with these entries, once the writer is closed -/
  zipBytes : List ZipEntry → Bytes

/-- Go `filepath.Walk` driving a function that threads a state: the walk ends
at the first call that returns an error, and returns that error. -/
def walkFold {α : Type} (fn : α → WalkEntry → α × Option Error) :
    α → List WalkEntry → α × Option Error
  | a, [] => (a, none)
  | a, e :: es =>
    match (fn a e).2 with
    | some err => ((fn a e).1, some err)
    | none => walkFold fn (fn a e).1 es

/-- Go `strings.HasSuffix(s, suffix)`. -/
def HasSuffix (s suffix : String) : Bool :=
  suffix.data.isSuffixOf s.data

/-- Go `addFileToZip(zipWriter, filename, pre)`: the entries of the writer
afterwards, and the error. -/
def addFileToZip (fs : ProtoFiles) (zipWriter : List ZipEntry) (filename pre : String) :
    List ZipEntry × Option Error :=
  match fs.Open filename with
  | FileRead.failed e => (zipWriter, some e)
  | FileRead.cut written e =>
    (zipWriter ++ [{ Name := TrimPrefix filename pre, Contents := written }], some e)
  | FileRead.whole data =>
    (zipWriter ++ [{ Name := TrimPrefix filename pre, Contents := data }], none)

/-- The function `zipArchiveOfPath` gives to `filepath.Walk` (lines 246-262). -/
def zipWalkFn (fs : ProtoFiles) (pre : String) (zipWriter : List ZipEntry) (e : WalkEntry) :
    List ZipEntry × Option Error :=
  if e.err ≠ none then (zipWriter, e.err)
  else if e.isDir then (zipWriter, none)
  else if !HasSuffix e.path ".proto" then (zipWriter, none)
  else addFileToZip fs zipWriter e.path pre

/-- Go `zipArchiveOfPath(path, pre)`: the buffer, and an error that is nil on
every path through the function (line 263 returns `buf, nil` whatever the
walk has returned). -/
def zipArchiveOfPath (fs : ProtoFiles) (path pre : String) : Bytes × Option Error :=
  (fs.zipBytes (walkFold (zipWalkFn fs pre) [] (fs.Walk path)).1, none)

/-- Lines 124-129 of `uploadProtoTask.Run`: the API and version IDs computed
from the path of the task. -/
def computeIDs (task : uploadProtoTask) : uploadProtoTask :=
  { task with
    apiID := Replace
      (Join (Split (TrimPrefix task.path (task.directory ++ "/"))).dropLast "-") '/' '-'
    versionID := (Split (TrimPrefix task.path (task.directory ++ "/"))).getLastD "" }

/-- The request of the `GetApi` call of `createAPI`. -/
def getApiCall (task : uploadProtoTask) : Call :=
  Call.GetApi ("projects/" ++ task.projectID ++ "/apis/" ++ task.apiID)

/-- The request of the `CreateApi` call of `createAPI`. -/
def createApiCall (task : uploadProtoTask) : Call :=
  Call.CreateApi ("projects/" ++ task.projectID) task.apiID task.apiID

/-- The request of the `GetVersion` call of `createVersion`. -/
def getVersionCall (task : uploadProtoTask) : Call :=
  Call.GetVersion
    ("projects/" ++ task.projectID ++ "/apis/" ++ task.apiID ++ "/versions/" ++ task.versionID)

/-- The request of the `CreateVersion` call of `createVersion`. -/
def createVersionCall (task : uploadProtoTask) : Call :=
  Call.CreateVersion ("projects/" ++ task.projectID ++ "/apis/" ++ task.apiID) task.versionID

/-- The request of the `GetSpec` call of `createSpec`. -/
def getSpecCall (task : uploadProtoTask) : Call :=
  Call.GetSpec
    ("projects/" ++ task.projectID ++ "/apis/" ++ task.apiID ++ "/versions/" ++ task.versionID
      ++ "/specs/" ++ "protos.zip")

/-- The request of the `CreateSpec` call of `createSpec`. -/
def createSpecCall (fs : ProtoFiles) (task : uploadProtoTask) : Call :=
  Call.CreateSpec
    ("projects/" ++ task.projectID ++ "/apis/" ++ task.apiID ++ "/versions/" ++ task.versionID)
    "protos.zip"
    { Style := "proto+zip", Filename := "protos.zip",
      Contents := (zipArchiveOfPath fs task.path (task.directory ++ "/")).1 }

/-- Go `task.createAPI()`. -/
def createAPI {σ : Type} (c : Client σ) (task : uploadProtoTask) (w : World σ) :
    Option Error × World σ :=
  if NotFound (w.issue c (getApiCall task)).1 then
    (none,
      (((w.issue c (getApiCall task)).2.issue c (createApiCall task)).2).say
        (logCreate ((w.issue c (getApiCall task)).2.issue c (createApiCall task)).1
          ("projects/" ++ task.projectID) task.apiID))
  else if (w.issue c (getApiCall task)).1 ≠ none then w.issue c (getApiCall task)
  else (none, (w.issue c (getApiCall task)).2)

/-- Go `task.createVersion()`. -/
def createVersion {σ : Type} (c : Client σ) (task : uploadProtoTask) (w : World σ) :
    Option Error × World σ :=
  if NotFound (w.issue c (getVersionCall task)).1 then
    (none,
      (((w.issue c (getVersionCall task)).2.issue c (createVersionCall task)).2).say
        (logCreate ((w.issue c (getVersionCall task)).2.issue c (createVersionCall task)).1
          ("projects/" ++ task.projectID ++ "/apis/" ++ task.apiID) task.versionID))
  else if (w.issue c (getVersionCall task)).1 ≠ none then w.issue c (getVersionCall task)
  else (none, (w.issue c (getVersionCall task)).2)

/-- Go `task.createSpec()`. -/
def createSpec {σ : Type} (c : Client σ) (fs : ProtoFiles) (task : uploadProtoTask)
    (w : World σ) : Option Error × World σ :=
  if NotFound (w.issue c (getSpecCall task)).1 then
    if (zipArchiveOfPath fs task.path (task.directory ++ "/")).2 ≠ none then
      ((zipArchiveOfPath fs task.path (task.directory ++ "/")).2, (w.issue c (getSpecCall task)).2)
    else
      (none,
        (((w.issue c (getSpecCall task)).2.issue c (createSpecCall fs task)).2).say
          (logCreate ((w.issue c (getSpecCall task)).2.issue c (createSpecCall fs task)).1
            ("projects/" ++ task.projectID ++ "/apis/" ++ task.apiID ++ "/versions/"
              ++ task.versionID) "protos.zip"))
  else if (w.issue c (getSpecCall task)).1 ≠ none then w.issue c (getSpecCall task)
  else (none, (w.issue c (getSpecCall task)).2)

/-- Line 132 of `Run`: the call of `createAPI`, on the task with its IDs
computed and after the IDs have been logged (line 130). -/
def stepAPI {σ : Type} (c : Client σ) (task : uploadProtoTask) (w : World σ) :
    Option Error × World σ :=
  createAPI c (computeIDs task)
    (w.say (LogLine.ids (computeIDs task).apiID (computeIDs task).versionID))

/-- Line 137 of `Run`: the call of `createVersion`, in the world `createAPI`
has left. -/
def stepVersion {σ : Type} (c : Client σ) (task : uploadProtoTask) (w : World σ) :
    Option Error × World σ :=
  createVersion c (computeIDs task) (stepAPI c task w).2

/-- Line 142 of `Run`: the call of `createSpec`, in the world `createVersion`
has left. -/
def stepSpec {σ : Type} (c : Client σ) (fs : ProtoFiles) (task : uploadProtoTask)
    (w : World σ) : Option Error × World σ :=
  createSpec c fs (computeIDs task) (stepVersion c task w).2

/-- Go `task.Run()`. -/
def Run {σ : Type} (c : Client σ) (fs : ProtoFiles) (task : uploadProtoTask) (w : World σ) :
    Option Error × World σ :=
  if (stepAPI c task w).1 ≠ none then stepAPI c task w
  else if (stepVersion c task w).1 ≠ none then stepVersion c task w
  else stepSpec c fs task w

/-- The registry answers of the demo clients: what a `Get` and what a
`Create` call return. -/
def fixedClient (get create : Option Error) : Client Unit :=
  { call := fun _ r => (if r.isCreate then create else get, ()) }

/-- A task for the directory `googleapis/google/example/v1` under the root
`googleapis`. -/
def demoTask : uploadProtoTask :=
  { projectID := "demo", path := "googleapis/google/example/v1", directory := "googleapis",
    apiID := "", versionID := "", specID := "" }

/-- A file store without files, whose archives are empty. -/
def demoProtoFiles : ProtoFiles :=
  { Walk := fun _ => [], Open := fun _ => FileRead.whole [], zipBytes := fun _ => [] }

/-- The state before a task runs. -/
def World.start : World Unit := { registry := (), trace := [], log := [] }

/-! ## Labels (`cmd/label_test.go`) -/

/-- The label map of a resource, as an association list. -/
abbrev Labels := List (String × String)

/-- Go `m[k]` with its presence flag. -/
def getLabel (k : String) : Labels → Option String
  | [] => none
  | (j, u) :: r => if j = k then some u else getLabel k r

/-- Go `m[k] = v`. -/
def setLabel (k v : String) : Labels → Labels
  | [] => [(k, v)]
  | (j, u) :: r => if j = k then (k, v) :: r else (j, u) :: setLabel k v r

/-- Go `delete(m, k)`. -/
def deleteLabel (k : String) : Labels → Labels
  | [] => []
  | (j, u) :: r => if j = k then deleteLabel k r else (j, u) :: deleteLabel k r

/-- What one argument of the label command asks for. -/
inductive LabelOp where
  | set (k v : String)
  | clear (k : String)
  | overwrite
  | other
  deriving DecidableEq, Repr

/-- Modelled from the spec: the argument forms of the label command, whose
source `label.go` is not among the sources (only `label_test.go` is):
`--overwrite`, `k=v` (split at the first `=`) and `k-`. -/
def parseLabelArg (a : String) : LabelOp :=
  if a = "--overwrite" then LabelOp.overwrite
  else if a.data.contains '=' then
    LabelOp.set (String.mk (a.data.takeWhile (· != '=')))
      (String.mk ((a.data.dropWhile (· != '=')).drop 1))
  else if a.data.getLast? = some '-' then LabelOp.clear (String.mk a.data.dropLast)
  else LabelOp.other

/-- Modelled from the spec: the effect of one argument of the label command
on the label map, `ow` telling whether `--overwrite` was given. A key that is
present is given a new value only with `--overwrite` (spec section 9:
"non-destructive updates require an explicit overwrite flag"). -/
def labelStep (ow : Bool) (L : Labels) (a : String) : Labels :=
  match parseLabelArg a with
  | LabelOp.set k v => if (getLabel k L).isSome && !ow then L else setLabel k v L
  | LabelOp.clear k => deleteLabel k L
  | LabelOp.overwrite => L
  | LabelOp.other => L

/-- Modelled from the spec: the label command on a resource with label map
`L`: the arguments are applied in order, under the `--overwrite` flag of the
whole invocation. The result is the label map the resource is updated to. -/
def labelCmd (args : List String) (L : Labels) : Labels :=
  args.foldl (labelStep (args.contains "--overwrite")) L

/-! ## Scanning a directory for protos (`cmd/upload-protos.go`) -/

/-- Regular expressions over characters, as far as the pattern of
`scanDirectoryForProtos` needs them. -/
inductive Re where
  | empty
  | eps
  | set (p : Char → Bool)
  | cat (a b : Re)
  | alt (a b : Re)
  | star (a : Re)

/-- Whether the expression accepts the empty string. -/
def Re.nullable : Re → Bool
  | Re.empty => false
  | Re.eps => true
  | Re.set _ => false
  | Re.cat a b => a.nullable && b.nullable
  | Re.alt a b => a.nullable || b.nullable
  | Re.star _ => true

/-- The derivative of the expression by one character. -/
def Re.deriv : Re → Char → Re
  | Re.empty, _ => Re.empty
  | Re.eps, _ => Re.empty
  | Re.set p, c => if p c then Re.eps else Re.empty
  | Re.cat a b, c =>
    if a.nullable then Re.alt (Re.cat (a.deriv c) b) (b.deriv c) else Re.cat (a.deriv c) b
  | Re.alt a b, c => Re.alt (a.deriv c) (b.deriv c)
  | Re.star a, c => Re.cat (a.deriv c) (Re.star a)

/-- Whether the expression accepts the whole of a string. -/
def Re.accepts : Re → List Char → Bool
  | r, [] => r.nullable
  | r, c :: cs => Re.accepts (r.deriv c) cs

/-- The expression `x+`. -/
def Re.plus (a : Re) : Re := Re.cat a (Re.star a)

/-- Any character at all. -/
def Re.anyChar : Re := Re.set fun _ => true

/-- The regexp `.`: any character but the newline. -/
def Re.dot : Re := Re.set fun c => c != '\n'

/-- The regexp `[1-9]`. -/
def Re.digit19 : Re := Re.set fun c => decide ('1'.toNat ≤ c.toNat) && decide (c.toNat ≤ '9'.toNat)

/-- Go `regexp.MustCompile("v.*[1-9]+.*")` (line 70). -/
def versionPattern : Re :=
  Re.cat (Re.set fun c => c == 'v')
    (Re.cat (Re.star Re.dot) (Re.cat (Re.plus Re.digit19) (Re.star Re.dot)))

/-- Go `r.MatchString(s)`: the pattern is not anchored, so some substring of
`s` has to be accepted. -/
def Re.MatchString (r : Re) (s : String) : Bool :=
  Re.accepts (Re.cat (Re.star Re.anyChar) (Re.cat r (Re.star Re.anyChar))) s.data

/-- Go `path.Base(p)`: the last element of the path, trailing slashes removed;
`.` for the empty path and `/` for a path of slashes only. -/
def Base (p : String) : String :=
  if p = "" then "."
  else if ((p.data.reverse.dropWhile (· == '/')).takeWhile (· != '/')).reverse = [] then "/"
  else String.mk ((p.data.reverse.dropWhile (· == '/')).takeWhile (· != '/')).reverse

/-- The task `scanDirectoryForProtos` puts on the queue for a directory
(lines 94-100). -/
def newUploadTask (projectID p directory : String) : uploadProtoTask :=
  { projectID := projectID, path := p, directory := directory,
    apiID := "", versionID := "", specID := "" }

/-- The function `scanDirectoryForProtos` gives to `filepath.Walk` (lines
82-102); the state is the sequence of tasks sent to the queue so far. -/
def scanWalkFn (projectID directory : String) (queue : List uploadProtoTask) (e : WalkEntry) :
    List uploadProtoTask × Option Error :=
  if e.err ≠ none then (queue, e.err)
  else if !e.isDir then (queue, none)
  else if !versionPattern.MatchString (Base e.path) then (queue, none)
  else (queue ++ [newUploadTask projectID e.path directory], none)

/-- Go `scanDirectoryForProtos(ctx, client, projectID, directory)`, as the
sequence of tasks it sends to the task queue, in the order sent. The workers
that take the tasks from the queue are left out. -/
def scanDirectoryForProtos (fs : ProtoFiles) (projectID directory : String) :
    List uploadProtoTask :=
  (walkFold (scanWalkFn projectID directory) [] (fs.Walk directory)).1

/-- The language of a regular expression, in the usual words: which strings
it denotes. -/
def Re.lang : Re → List Char → Prop
  | Re.empty, _ => False
  | Re.eps, s => s = []
  | Re.set p, s => ∃ c, s = [c] ∧ p c = true
  | Re.cat a b, s => ∃ x y, s = x ++ y ∧ a.lang x ∧ b.lang y
  | Re.alt a b, s => a.lang s ∨ b.lang s
  | Re.star a, s => ∃ L : List (List Char), s = L.flatten ∧ ∀ x ∈ L, a.lang x

/-- The pattern in the words of the claim: the name contains a `v` followed,
later on the same line, by a digit from 1 to 9. -/
def hasVersionShape (s : List Char) : Prop :=
  ∃ x y d z, s = x ++ 'v' :: (y ++ d :: z) ∧ '\n' ∉ y ∧ '1'.toNat ≤ d.toNat ∧
    d.toNat ≤ '9'.toNat

/-- A tree for the walk: the root `googleapis` with the directories
`google`, `google/example`, `google/example/v1` (holding two files),
`google/example/v0` and `v2`. -/
def demoWalk : List WalkEntry :=
  [ { path := "googleapis", isDir := true, err := none },
    { path := "googleapis/google", isDir := true, err := none },
    { path := "googleapis/google/example", isDir := true, err := none },
    { path := "googleapis/google/example/v0", isDir := true, err := none },
    { path := "googleapis/google/example/v1", isDir := true, err := none },
    { path := "googleapis/google/example/v1/a.proto", isDir := false, err := none },
    { path := "googleapis/google/example/v1/readme.md", isDir := false, err := none },
    { path := "googleapis/v2", isDir := true, err := none } ]

/-- A file system holding `demoWalk` under `googleapis`. -/
def demoTree : ProtoFiles :=
  { Walk := fun root => demoWalk.filter fun e => root.data.isPrefixOf e.path.data
    Open := fun _ => FileRead.whole [1, 2, 3]
    zipBytes := fun es => es.map fun e => e.Contents.length.toUInt8 }

/-- The bytes of a file that reach the archive. -/
def FileRead.bytes : FileRead → Bytes
  | FileRead.failed _ => []
  | FileRead.cut written _ => written
  | FileRead.whole data => data

/-- The entry `addFileToZip` writes for a file that is read whole. -/
def zipEntryOf (fs : ProtoFiles) (pre : String) (e : WalkEntry) : ZipEntry :=
  { Name := TrimPrefix e.path pre, Contents := (fs.Open e.path).bytes }

/-- A directory `protos/v1` with three proto files, the second of which
cannot be opened. -/
def brokenTree : ProtoFiles :=
  { Walk := fun _ =>
      [ { path := "protos/v1", isDir := true, err := none },
        { path := "protos/v1/a.proto", isDir := false, err := none },
        { path := "protos/v1/b.proto", isDir := false, err := none },
        { path := "protos/v1/c.proto", isDir := false, err := none } ]
    Open := fun f =>
      if f = "protos/v1/b.proto" then FileRead.failed ⟨Code.Unknown, "permission denied"⟩
      else FileRead.whole [1, 2, 3]
    zipBytes := fun es => es.map fun e => e.Contents.length.toUInt8 }

/-! ## Exporting complexity to a sheet (`core/complexity-export.go`) -/

/-- How a piece of code that can stop the program ends: with a value, in
`log.Fatal`, or in a run-time panic. -/
inductive Built (α : Type) where
  | ok (a : α)
  | fatal (msg : String)
  | panic (msg : String)
  deriving DecidableEq, Repr

/-- Go `metrics.Complexity`, with the counts a row shows. -/
structure Complexity where
  SchemaCount : Int
  SchemaPropertyCount : Int
  PathCount : Int
  GetCount : Int
  PostCount : Int
  PutCount : Int
  DeleteCount : Int
  deriving DecidableEq, Repr

/-- One cell of a sheet row (Go `interface{}`): a string or a count. -/
inductive Cell where
  | str (s : String)
  | num (n : Int)
  deriving DecidableEq, Repr

/-- Go `rowForLabeledComplexity(api, version, c)`; `none` is the nil pointer. -/
def rowForLabeledComplexity (api version : String) (c : Option Complexity) : List Cell :=
  match c with
  | none =>
    [Cell.str "api", Cell.str "version", Cell.str "schemas", Cell.str "schema properties",
      Cell.str "paths", Cell.str "gets", Cell.str "posts", Cell.str "puts", Cell.str "deletes"]
  | some c =>
    [Cell.str api, Cell.str version, Cell.num c.SchemaCount, Cell.num c.SchemaPropertyCount,
      Cell.num c.PathCount, Cell.num c.GetCount, Cell.num c.PostCount, Cell.num c.PutCount,
      Cell.num c.DeleteCount]

/-- What `getComplexity` calls: `MessageTypeForMimeType` of package `core`
(absent from the sources) and `proto.Unmarshal` into a `Complexity`. -/
structure ComplexityEnv where
  MessageTypeForMimeType : String → Except Error String
  Unmarshal : Bytes → Except Error Complexity

/-- Go `getComplexity(artifact)`. -/
def getComplexity (env : ComplexityEnv) (artifact : Artifact) : Except Error Complexity :=
  match env.MessageTypeForMimeType artifact.MimeType with
  | .ok messageType =>
    if messageType = "gnostic.metrics.Complexity" then
      match env.Unmarshal artifact.Contents with
      | .error e => .error e
      | .ok value => .ok value
    else .error ⟨Code.Unknown, "not a complexity: " ++ artifact.Name⟩
  | .error _ => .error ⟨Code.Unknown, "not a complexity: " ++ artifact.Name⟩

/-- The body of the loop of `ExportComplexityToSheet` (lines 43-48) for one
input: the row appended, `log.Fatalf` when the input is not a complexity, a
panic when `parts[3]` or `parts[5]` is out of range. -/
def complexityRow (env : ComplexityEnv) (input : Artifact) : Built (List Cell) :=
  match getComplexity env input with
  | .error e => Built.fatal e.msg
  | .ok complexity =>
    match (Split input.Name)[3]? with
    | none => Built.panic "index out of range [3]"
    | some api =>
      match (Split input.Name)[5]? with
      | none => Built.panic "index out of range [5]"
      | some version => Built.ok (rowForLabeledComplexity api version (some complexity))

/-- The loop of `ExportComplexityToSheet` (lines 42-49), appending to `rows`. -/
def complexityLoop (env : ComplexityEnv) (rows : List (List Cell)) :
    List Artifact → Built (List (List Cell))
  | [] => Built.ok rows
  | input :: rest =>
    match complexityRow env input with
    | Built.ok row => complexityLoop env (rows ++ [row]) rest
    | Built.fatal msg => Built.fatal msg
    | Built.panic msg => Built.panic msg

/-- Lines 40-49 of `ExportComplexityToSheet`: the rows handed to the sheet.
The calls of the sheets client around them are left out. -/
def complexityRows (env : ComplexityEnv) (inputs : List Artifact) : Built (List (List Cell)) :=
  complexityLoop env [rowForLabeledComplexity "" "" none] inputs

/-- An environment in which every artifact is a complexity with the counts
1 to 7. -/
def demoComplexityEnv : ComplexityEnv :=
  { MessageTypeForMimeType := fun _ => .ok "gnostic.metrics.Complexity"
    Unmarshal := fun _ => .ok ⟨1, 2, 3, 4, 5, 6, 7⟩ }

/-! ## Exporting specs to CSV (`cmd/export-csv.go`) -/

/-- Go `exportCSVRow`. -/
structure exportCSVRow where
  ApiID : String
  VersionID : String
  SpecID : String
  ContentsPath : String
  deriving DecidableEq, Repr

/-- The `Args` function of `exportCsvCmd` (lines 45-53): the error for the
first parent that `VersionRegexp` rejects, nil when there is none. -/
def exportCsvArgs : List String → Option Error
  | [] => none
  | parent :: rest =>
    if !MatchString VersionRegexp parent then
      some ⟨Code.Unknown, "invalid parent argument \"" ++ parent ++ "\""⟩
    else exportCsvArgs rest

/-- The handler given to `core.ListSpecs` (lines 68-81) for one spec: no row
when `SpecRegexp` rejects the name, else the row read from the submatch at
indices 2, 3 and 4 (a panic if one of them is out of range). -/
def specRow (name : String) : Built (Option exportCSVRow) :=
  if !MatchString SpecRegexp name then Built.ok none
  else
    match FindStringSubmatch SpecRegexp name with
    | none => Built.panic "index out of range [2] with length 0"
    | some m =>
      match m[2]?, m[3]?, m[4]? with
      | some api, some version, some spec =>
        Built.ok (some
          { ApiID := api, VersionID := version, SpecID := spec,
            ContentsPath := "$APG_REGISTRY_ADDRESS/" ++ name ++ "/contents" })
      | _, _, _ => Built.panic "index out of range"

/-- The handler applied to the specs of one listing, in order. -/
def specRows (rows : List exportCSVRow) : List String → Built (List exportCSVRow)
  | [] => Built.ok rows
  | name :: rest =>
    match specRow name with
    | Built.ok none => specRows rows rest
    | Built.ok (some row) => specRows (rows ++ [row]) rest
    | Built.fatal msg => Built.fatal msg
    | Built.panic msg => Built.panic msg

/-- The loop over the parents (lines 67-85): each parent is listed, the
handler sees the specs of the listing in order, and an error of the listing
ends the command in `log.Fatalf`. A spec is given by its name. -/
def exportCsvLoop (c : Lister String) (filter : String) (rows : List exportCSVRow) :
    List String → Built (List exportCSVRow)
  | [] => Built.ok rows
  | parent :: rest =>
    match specRows rows
        (c.ListSpecs ((FindStringSubmatch VersionRegexp parent).getD []) filter).1 with
    | Built.ok rows1 =>
      match (c.ListSpecs ((FindStringSubmatch VersionRegexp parent).getD []) filter).2 with
      | some e => Built.fatal ("Failed to list specs: " ++ e.msg)
      | none => exportCsvLoop c filter rows1 rest
    | Built.fatal msg => Built.fatal msg
    | Built.panic msg => Built.panic msg

/-- The record `csv.Writer` is given for a row (line 93). -/
def csvRecord (row : exportCSVRow) : List String :=
  [row.ApiID, row.VersionID, row.SpecID, row.ContentsPath]

/-- The `Run` function of `exportCsvCmd`, as the records written to the
output: the header, then one record per row. The writer is taken not to
fail. -/
def exportCsvRun (c : Lister String) (filter : String) (args : List String) :
    Built (List (List String)) :=
  match exportCsvLoop c filter [] args with
  | Built.ok rows =>
    Built.ok (["api_id", "version_id", "spec_id", "contents_path"] :: rows.map csvRecord)
  | Built.fatal msg => Built.fatal msg
  | Built.panic msg => Built.panic msg

/-- The row the claim describes for a spec name: none when `SpecRegexp`
rejects it, else the IDs captured after the project ID and the contents path. -/
def specRowOf (name : String) : Option exportCSVRow :=
  match FindStringSubmatch SpecRegexp name with
  | some [_, _, api, version, spec] =>
    some { ApiID := api, VersionID := version, SpecID := spec,
           ContentsPath := "$APG_REGISTRY_ADDRESS/" ++ name ++ "/contents" }
  | _ => none

/-- A registry with one version that holds two specs and one name that is
not a spec name. -/
def demoSpecLister : Lister String :=
  { ListAPIs := fun _ _ => ([], none)
    ListSpecs := fun m _ =>
      if m = ["projects/p/apis/a/versions/v1", "p", "a", "v1"] then
        (["projects/p/apis/a/versions/v1/specs/openapi.yaml",
          "projects/p/apis/a/versions/v1",
          "projects/p/apis/a/versions/v1/specs/protos.zip@abc123"], none)
      else ([], none)
    ListArtifacts := fun _ _ _ => ([], none) }

/-! ## Labels over GraphQL (`graphql/labels.go`) -/

/-- Go `rpc.Label`; the times are kept as seconds. -/
structure Label where
  Name : String
  CreateTime : Int
  UpdateTime : Int
  deriving DecidableEq, Repr

/-- The map `representationForLabel` builds: `id`, `created`, `updated`. -/
structure LabelRep where
  id : String
  created : Int
  updated : Int
  deriving DecidableEq, Repr

/-- Go `representationForLabel(label)` on a label that is there. -/
def labelRep (label : Label) : LabelRep :=
  { id := label.Name, created := label.CreateTime, updated := label.UpdateTime }

/-- Go `representationForLabel(label)`: `label.Name` is read from the pointer,
so the nil pointer (`none`) ends in a nil-pointer panic. -/
def representationForLabel (label : Option Label) : Built LabelRep :=
  match label with
  | none => Built.panic "invalid memory address or nil pointer dereference"
  | some l => Built.ok (labelRep l)

/-- The arguments of a resolver (`p.Args`): each field is the value when the
argument is there with the asserted type, `none` otherwise. -/
structure ResolveArgs where
  after : Option String
  first : Option Int
  id : Option String
  deriving DecidableEq, Repr

/-- Go `rpc.ListLabelsRequest`. -/
structure ListLabelsRequest where
  Parent : String
  PageSize : Int
  PageToken : String
  deriving DecidableEq, Repr

/-- Go `rpc.ListLabelsResponse`. -/
structure ListLabelsResponse where
  Labels : List Label
  NextPageToken : String
  deriving DecidableEq, Repr

/-- Go `response.GetLabels()`, which is nil on the nil response. -/
def GetLabels (response : Option ListLabelsResponse) : List Label :=
  match response with
  | none => []
  | some r => r.Labels

/-- Go `response.GetNextPageToken()`, which is empty on the nil response. -/
def GetNextPageToken (response : Option ListLabelsResponse) : String :=
  match response with
  | none => ""
  | some r => r.NextPageToken

/-- The label service behind the client: `ListLabels` answers with a response
(nil when the call fails; `resolveLabels` does not look at the error) and
`GetLabel` with a label and an error; both may change the state. -/
structure LabelService (σ : Type) where
  ListLabels : σ → ListLabelsRequest → Option ListLabelsResponse × σ
  GetLabel : σ → String → (Option Label × Option Error) × σ

/-- Go `int32(n)` for an `int`. -/
def toInt32 (n : Int) : Int :=
  (n + 2147483648) % 4294967296 - 2147483648

/-- The variables of the loop of `resolveLabels`, and the responses received
so far (oldest first). -/
structure LabelsLoop (σ : Type) where
  st : σ
  req : ListLabelsRequest
  edges : List LabelRep
  response : Option ListLabelsResponse
  fetched : List (Option ListLabelsResponse)

/-- One pass through the body of the loop (lines 72-76). -/
def LabelsLoop.fetch {σ : Type} (srv : LabelService σ) (s : LabelsLoop σ) : LabelsLoop σ :=
  { st := (srv.ListLabels s.st s.req).2
    req := { s.req with PageToken := GetNextPageToken (srv.ListLabels s.st s.req).1 }
    edges := s.edges ++ (GetLabels (srv.ListLabels s.st s.req).1).map labelRep
    response := (srv.ListLabels s.st s.req).1
    fetched := s.fetched ++ [(srv.ListLabels s.st s.req).1] }

/-- The loop of `resolveLabels` (lines 71-80), run for at most `fuel` passes;
`none` when the passes do not suffice. -/
def labelsLoop {σ : Type} (srv : LabelService σ) (pageSize : Int) :
    Nat → LabelsLoop σ → Option (LabelsLoop σ)
  | 0, s => if (s.edges.length : Int) < pageSize then none else some s
  | fuel + 1, s =>
    if (s.edges.length : Int) < pageSize then
      if (s.fetch srv).req.PageToken = "" then some (s.fetch srv)
      else labelsLoop srv pageSize fuel (s.fetch srv)
    else some s

/-- What `connectionForEdgesAndEndCursor` is given, with the responses
received on the way. -/
structure LabelsConnection where
  edges : List LabelRep
  endCursor : String
  fetched : List (Option ListLabelsResponse)
  deriving DecidableEq, Repr

/-- The page size of `resolveLabels` (lines 63-68). -/
def labelsPageSize (args : ResolveArgs) : Int :=
  match args.first with
  | some n => n
  | none => 50

/-- The request before the loop (lines 56-66). -/
def labelsRequest (parent : String) (args : ResolveArgs) : ListLabelsRequest :=
  { Parent := parent
    PageSize := match args.first with
      | some n => toInt32 n
      | none => 0
    PageToken := match args.after with
      | some t => t
      | none => "" }

/-- Go `resolveLabels(p)`, for at most `fuel` passes of its loop: `none` when
the passes do not suffice, else the error of `connection.NewClient` or the
connection built. `parent` is what `getParentFromParams(p)` returns. -/
def resolveLabels {σ : Type} (newClient : Option Error) (srv : LabelService σ) (st : σ)
    (parent : String) (args : ResolveArgs) (fuel : Nat) :
    Option (Except Error LabelsConnection) :=
  match newClient with
  | some e => some (.error e)
  | none =>
    match labelsLoop srv (labelsPageSize args) fuel
        { st := st, req := labelsRequest parent args, edges := [], response := none,
          fetched := [] } with
    | none => none
    | some s =>
      some (.ok { edges := s.edges, endCursor := GetNextPageToken s.response,
                  fetched := s.fetched })

/-- The claim's rule for the pages fetched, with `held` edges in hand: a page
is fetched exactly while fewer than `pageSize` edges are held and the page
before it, if any, carried a next-page token. -/
def pagedByRule (pageSize : Int) : Nat → List (Option ListLabelsResponse) → Bool
  | held, [] => !decide ((held : Int) < pageSize)
  | held, r :: rest =>
    decide ((held : Int) < pageSize) &&
      (if GetNextPageToken r = "" then rest.isEmpty
       else pagedByRule pageSize (held + (GetLabels r).length) rest)

/-- Go `resolveLabel(p)`: the pair returned, or the panic. -/
def resolveLabel {σ : Type} (newClient : Option Error) (srv : LabelService σ) (st : σ)
    (args : ResolveArgs) : Built (Option LabelRep × Option Error) :=
  match newClient with
  | some e => Built.ok (none, some e)
  | none =>
    match args.id with
    | none => Built.ok (none, some ⟨Code.Unknown, "missing id field"⟩)
    | some name =>
      match representationForLabel (srv.GetLabel st name).1.1 with
      | Built.ok rep => Built.ok (some rep, (srv.GetLabel st name).1.2)
      | Built.fatal msg => Built.fatal msg
      | Built.panic msg => Built.panic msg

/-- A label service over a list of pages: the state is the number of pages
served; `GetLabel` knows the label `env` and answers `NotFound` otherwise. -/
def pagedService (pages : List ListLabelsResponse) : LabelService Nat :=
  { ListLabels := fun n _ => (pages[n]?, n + 1)
    GetLabel := fun n name =>
      (if name = "env" then (some ⟨"env", 10, 20⟩, none)
       else (none, some ⟨Code.NotFound, "label not found"⟩), n) }

/-- The arguments `first: 3`. -/
def demoArgs : ResolveArgs := { after := none, first := some 3, id := none }

/-- What `resolveLabels` returns over `demoPages` for `demoArgs`. -/
def demoConnection : LabelsConnection :=
  { edges := [⟨"a", 1, 1⟩, ⟨"b", 2, 2⟩, ⟨"c", 3, 3⟩, ⟨"d", 4, 4⟩]
    endCursor := "t2"
    fetched :=
      [some { Labels := [⟨"a", 1, 1⟩, ⟨"b", 2, 2⟩], NextPageToken := "t1" },
       some { Labels := [⟨"c", 3, 3⟩, ⟨"d", 4, 4⟩], NextPageToken := "t2" }] }

/-- Three pages of two labels each; the last has no next-page token. -/
def demoPages : List ListLabelsResponse :=
  [ { Labels := [⟨"a", 1, 1⟩, ⟨"b", 2, 2⟩], NextPageToken := "t1" },
    { Labels := [⟨"c", 3, 3⟩, ⟨"d", 4, 4⟩], NextPageToken := "t2" },
    { Labels := [⟨"e", 5, 5⟩, ⟨"f", 6, 6⟩], NextPageToken := "" } ]

/-! ## Lemmas: splitting and joining -/

theorem splitAux_of_not_mem (a : List Char) (h : '/' ∉ a) : splitAux a = (a, []) := by
  induction a with
  | nil => rfl
  | cons c cs ih =>
    have hc : c ≠ '/' := fun e => h (by simp [e])
    have hcs : '/' ∉ cs := fun e => h (by simp [e])
    simp [splitAux, hc, ih hcs]

theorem splitSlash_of_not_mem (a : List Char) (h : '/' ∉ a) : splitSlash a = [a] := by
  simp [splitSlash, splitAux_of_not_mem a h]

theorem splitSlash_append (a b : List Char) (h : '/' ∉ a) :
    splitSlash (a ++ '/' :: b) = a :: splitSlash b := by
  induction a with
  | nil => simp [splitSlash, splitAux]
  | cons c cs ih =>
    have hc : c ≠ '/' := fun e => h (by simp [e])
    have hcs : '/' ∉ cs := fun e => h (by simp [e])
    have := ih hcs
    simp only [splitSlash, List.cons.injEq] at this
    simp [splitSlash, splitAux, hc, this.1, this.2]

theorem splitSlash_joinSep (x : List Char) (r : List (List Char))
    (h : ∀ s ∈ x :: r, '/' ∉ s) : splitSlash (joinSep ['/'] (x :: r)) = x :: r := by
  induction r generalizing x with
  | nil => simpa [joinSep] using splitSlash_of_not_mem x (h x (by simp))
  | cons y r ih =>
    have hx : '/' ∉ x := h x (by simp)
    have hr : ∀ s ∈ y :: r, '/' ∉ s := fun s hs => h s (List.mem_cons_of_mem _ hs)
    simp only [joinSep, List.append_assoc, List.singleton_append]
    rw [splitSlash_append _ _ hx, ih y hr]

theorem splitAux_not_mem (cs : List Char) :
    '/' ∉ (splitAux cs).1 ∧ ∀ s ∈ (splitAux cs).2, '/' ∉ s := by
  induction cs with
  | nil => simp [splitAux]
  | cons c cs ih =>
    by_cases hc : c = '/'
    · simpa [splitAux, hc] using ih
    · refine ⟨?_, ?_⟩
      · simpa [splitAux, hc] using ⟨fun e => hc e.symm, ih.1⟩
      · simpa [splitAux, hc] using ih.2

theorem splitSlash_not_mem (cs : List Char) : ∀ s ∈ splitSlash cs, '/' ∉ s := by
  intro s hs
  simp only [splitSlash, List.mem_cons] at hs
  rcases hs with rfl | hs
  · exact (splitAux_not_mem cs).1
  · exact (splitAux_not_mem cs).2 s hs

/-! ## Lemmas: identifiers -/

theorem isIdChar_ne_slash (c : Char) (h : isIdChar c = true) : c ≠ '/' := by
  rintro rfl; revert h; decide

theorem isIdChar_ne_space (c : Char) (h : isIdChar c = true) : c ≠ ' ' := by
  rintro rfl; revert h; decide

theorem isIdChar_ne_at (c : Char) (h : isIdChar c = true) : c ≠ '@' := by
  rintro rfl; revert h; decide

theorem validId_ne_nil (x : List Char) (h : validId x = true) : x ≠ [] := by
  rintro rfl; revert h; decide

theorem validId_all (x : List Char) (h : validId x = true) : ∀ c ∈ x, isIdChar c = true := by
  simp only [validId, Bool.and_eq_true, List.all_eq_true] at h
  exact h.2

theorem validId_no_slash (x : List Char) (h : validId x = true) : '/' ∉ x :=
  fun hm => isIdChar_ne_slash _ (validId_all x h _ hm) rfl

theorem validId_no_space (x : List Char) (h : validId x = true) : ' ' ∉ x :=
  fun hm => isIdChar_ne_space _ (validId_all x h _ hm) rfl

theorem validId_of_mem_space (x : List Char) (h : ' ' ∈ x) : validId x = false := by
  cases hv : validId x with
  | false => rfl
  | true => exact absurd h (validId_no_space x hv)

theorem specId_valid (x i : List Char) (h : specId x = some i) : validId i = true := by
  unfold specId at h
  split at h
  · next hv =>
    split at h
    · cases h; exact hv
    · split at h
      · cases h; exact hv
      · cases h
  · cases h

theorem splitSlash_append_slash (x y : List Char) :
    splitSlash (x ++ '/' :: y) = splitSlash x ++ splitSlash y := by
  induction x with
  | nil => simp [splitSlash, splitAux]
  | cons c cs ih =>
    simp only [splitSlash, List.cons_append, List.cons.injEq] at ih
    by_cases hc : c = '/'
    · simp [splitSlash, splitAux, hc, ih.1, ih.2]
    · simp [splitSlash, splitAux, hc, ih.1, ih.2]

/-! ## Lemmas: matching -/

theorem matchSegs_append (s1 s2 : List Seg) (l1 l2 : List (List Char)) (m1 m2 : List String)
    (h1 : matchSegs s1 l1 = some m1) (h2 : matchSegs s2 l2 = some m2) :
    matchSegs (s1 ++ s2) (l1 ++ l2) = some (m1 ++ m2) := by
  induction s1 generalizing l1 m1 with
  | nil =>
    cases l1 with
    | nil => simp [matchSegs] at h1; subst h1; simpa using h2
    | cons x xs => simp [matchSegs] at h1
  | cons sg ps ih =>
    cases l1 with
    | nil => cases sg <;> simp [matchSegs] at h1
    | cons x xs =>
      cases sg with
      | lit s =>
        by_cases hx : x = s.data
        · simp only [matchSegs, hx, if_true] at h1
          simpa [matchSegs, hx] using ih xs m1 h1
        · simp [matchSegs, hx] at h1
      | id =>
        by_cases hx : validId x = true
        · simp only [matchSegs, hx, if_true, Option.map_eq_some'] at h1
          obtain ⟨m, hm, rfl⟩ := h1
          simp [matchSegs, hx, ih xs m hm]
        · simp [matchSegs, hx] at h1
      | idRev =>
        cases hs : specId x with
        | none => simp [matchSegs, hs] at h1
        | some i =>
          simp only [matchSegs, hs, Option.map_eq_some'] at h1
          obtain ⟨m, hm, rfl⟩ := h1
          simp [matchSegs, hs, ih xs m hm]

theorem matchSegs_no_slash (sh : List Seg) (l : List (List Char)) (m : List String)
    (h : matchSegs sh l = some m) : ∀ c ∈ m, '/' ∉ c.data := by
  induction sh generalizing l m with
  | nil =>
    cases l with
    | nil => simp [matchSegs] at h; subst h; simp
    | cons x xs => simp [matchSegs] at h
  | cons sg ps ih =>
    cases l with
    | nil => cases sg <;> simp [matchSegs] at h
    | cons x xs =>
      cases sg with
      | lit s =>
        by_cases hx : x = s.data
        · simp only [matchSegs, hx, if_true] at h
          exact ih xs m h
        · simp [matchSegs, hx] at h
      | id =>
        by_cases hx : validId x = true
        · simp only [matchSegs, hx, if_true, Option.map_eq_some'] at h
          obtain ⟨m0, hm, rfl⟩ := h
          intro c hc
          rcases List.mem_cons.1 hc with rfl | hc
          · exact validId_no_slash x hx
          · exact ih xs m0 hm c hc
        · simp [matchSegs, hx] at h
      | idRev =>
        cases hs : specId x with
        | none => simp [matchSegs, hs] at h
        | some i =>
          simp only [matchSegs, hs, Option.map_eq_some'] at h
          obtain ⟨m0, hm, rfl⟩ := h
          intro c hc
          rcases List.mem_cons.1 hc with rfl | hc
          · exact validId_no_slash i (specId_valid x i hs)
          · exact ih xs m0 hm c hc

theorem FindStringSubmatch_no_slash (re : Regexp) (path : String) (m : List String)
    (h : FindStringSubmatch re path = some m) : ∀ c ∈ m.tail, '/' ∉ c.data := by
  simp only [FindStringSubmatch, Option.map_eq_some'] at h
  obtain ⟨m0, hm, rfl⟩ := h
  obtain ⟨sh, _, hsh⟩ := List.exists_of_findSome?_eq_some hm
  simpa using matchSegs_no_slash sh _ m0 hsh

/-! ## Resource names: the verified properties -/

theorem path4_data (c1 p c2 a : String) :
    (c1 ++ "/" ++ p ++ "/" ++ c2 ++ "/" ++ a).data
      = joinSep ['/'] [c1.data, p.data, c2.data, a.data] := by
  simp [String.data_append, joinSep]

theorem split_path4 (c1 p c2 a : String) (h1 : '/' ∉ c1.data) (hp : '/' ∉ p.data)
    (h2 : '/' ∉ c2.data) (ha : '/' ∉ a.data) :
    splitSlash (c1 ++ "/" ++ p ++ "/" ++ c2 ++ "/" ++ a).data
      = [c1.data, p.data, c2.data, a.data] := by
  rw [path4_data]
  apply splitSlash_joinSep
  intro s hs
  simp only [List.mem_cons, List.mem_singleton, List.not_mem_nil, or_false] at hs
  rcases hs with rfl | rfl | rfl | rfl <;> assumption

theorem api_path_eq (p a : String) :
    "projects/" ++ p ++ "/apis/" ++ a = "projects" ++ "/" ++ p ++ "/" ++ "apis" ++ "/" ++ a := by
  apply String.ext
  simp [String.data_append]

/-- The modelled patterns pass the test of the package: every path of the
table of `TestResourceNames` is accepted or rejected as the table asks. -/
theorem TestResourceNames_passes : TestResourceNames = true := by decide

/-- C1: `ApiRegexp` accepts `projects/p/apis/a` for all valid IDs `p` and `a`
and captures exactly `p` and `a`; the wildcard `-` is accepted at both ID
positions; and a four-segment path is rejected as soon as its collection
segments are not `projects` and `apis`, or one of its IDs is empty or contains
a space (with the rejected paths of the test table as instances). -/
theorem ApiRegexp_accepts_and_rejects :
    (∀ p a : String, validId p.data = true → validId a.data = true →
      FindStringSubmatch ApiRegexp ("projects/" ++ p ++ "/apis/" ++ a)
        = some ["projects/" ++ p ++ "/apis/" ++ a, p, a]) ∧
    FindStringSubmatch ApiRegexp "projects/google/apis/sample"
      = some ["projects/google/apis/sample", "google", "sample"] ∧
    FindStringSubmatch ApiRegexp "projects/-/apis/-" = some ["projects/-/apis/-", "-", "-"] ∧
    (∀ c1 p c2 a : String, '/' ∉ c1.data → '/' ∉ p.data → '/' ∉ c2.data → '/' ∉ a.data →
      (c1 ≠ "projects" ∨ c2 ≠ "apis" ∨ p = "" ∨ a = "" ∨ ' ' ∈ p.data ∨ ' ' ∈ a.data) →
      FindStringSubmatch ApiRegexp (c1 ++ "/" ++ p ++ "/" ++ c2 ++ "/" ++ a) = none) ∧
    FindStringSubmatch ApiRegexp "projects/google/versions/v1" = none ∧
    FindStringSubmatch ApiRegexp "projects/123/invalid/123" = none ∧
    FindStringSubmatch ApiRegexp "projects/123/apis/" = none ∧
    FindStringSubmatch ApiRegexp "projects/123/apis/ 123" = none := by
  refine ⟨?_, by decide, by decide, ?_, by decide, by decide, by decide, by decide⟩
  · intro p a hp ha
    have hs := split_path4 "projects" p "apis" a (by decide) (validId_no_slash _ hp)
      (by decide) (validId_no_slash _ ha)
    rw [← api_path_eq] at hs
    unfold FindStringSubmatch
    rw [hs]
    simp [ApiRegexp, apiShape, projectShape, matchSegs, hp, ha]
  · intro c1 p c2 a h1 hp h2 ha hbad
    have hs := split_path4 c1 p c2 a h1 hp h2 ha
    have e1 : (c1.data = "projects".data) ↔ c1 = "projects" :=
      ⟨fun h => String.ext h, fun h => by rw [h]⟩
    have e2 : (c2.data = "apis".data) ↔ c2 = "apis" :=
      ⟨fun h => String.ext h, fun h => by rw [h]⟩
    simp only [FindStringSubmatch, ApiRegexp, apiShape, projectShape, hs, matchSegs,
      List.cons_append, List.nil_append, List.findSome?_cons, List.findSome?_nil]
    rcases hbad with h | h | h | h | h | h
    · simp [e1, h]
    · by_cases hc : c1 = "projects"
      · by_cases hv : validId p.data = true
        · simp [e1, e2, h, hc, hv]
        · simp [e1, hc, hv]
      · simp [e1, hc]
    · subst h
      by_cases hc : c1 = "projects"
      · have : validId "".data = false := by decide
        simp [e1, hc, this]
      · simp [e1, hc]
    · subst h
      have hv0 : validId "".data = false := by decide
      by_cases hc : c1 = "projects"
      · by_cases hv : validId p.data = true
        · by_cases hc2 : c2 = "apis"
          · simp [e1, e2, hc, hv, hc2, hv0]
          · simp [e1, e2, hc, hv, hc2]
        · simp [e1, hc, hv]
      · simp [e1, hc]
    · have hv := validId_of_mem_space _ h
      by_cases hc : c1 = "projects"
      · simp [e1, hc, hv]
      · simp [e1, hc]
    · have hv0 := validId_of_mem_space _ h
      by_cases hc : c1 = "projects"
      · by_cases hv : validId p.data = true
        · by_cases hc2 : c2 = "apis"
          · simp [e1, e2, hc, hv, hc2, hv0]
          · simp [e1, e2, hc, hv, hc2]
        · simp [e1, hc, hv]
      · simp [e1, hc]

/-- C1 at `projects/1-2-3/apis/abc` (accepted) and `projects/a b/apis/abc`
(rejected: the project ID contains a space). -/
theorem ApiRegexp_accepts_and_rejects_witness :
    FindStringSubmatch ApiRegexp ("projects/" ++ "1-2-3" ++ "/apis/" ++ "abc")
        = some ["projects/" ++ "1-2-3" ++ "/apis/" ++ "abc", "1-2-3", "abc"] ∧
    FindStringSubmatch ApiRegexp ("projects" ++ "/" ++ "a b" ++ "/" ++ "apis" ++ "/" ++ "abc")
        = none :=
  ⟨ApiRegexp_accepts_and_rejects.1 "1-2-3" "abc" (by decide) (by decide),
   ApiRegexp_accepts_and_rejects.2.2.2.1 "projects" "a b" "apis" "abc"
     (by decide) (by decide) (by decide) (by decide)
     (Or.inr (Or.inr (Or.inr (Or.inr (Or.inl (by decide))))))⟩

/-- C2: an ID position never absorbs more than one path segment. For each of
the nine resource and collection patterns, every ID captured from an accepted
path is free of `/`; and `ApisRegexp` rejects `projects/a/b/apis`. -/
theorem captured_ids_span_one_segment :
    (∀ re ∈ [ProjectRegexp, ApisRegexp, ApiRegexp, VersionsRegexp, VersionRegexp,
        SpecsRegexp, SpecRegexp, ArtifactsRegexp, ArtifactRegexp],
      ∀ (path : String) (m : List String), FindStringSubmatch re path = some m →
        ∀ c ∈ m.tail, '/' ∉ c.data) ∧
    FindStringSubmatch ApisRegexp "projects/a/b/apis" = none :=
  ⟨fun re _ path m h => FindStringSubmatch_no_slash re path m h, by decide⟩

/-- C2 at the spec name `projects/p/apis/a/versions/v/specs/s.yaml@ab12`. -/
theorem captured_ids_span_one_segment_witness :
    ∀ c ∈ ["p", "a", "v", "s.yaml"], '/' ∉ String.data c :=
  captured_ids_span_one_segment.1 SpecRegexp (by decide)
    "projects/p/apis/a/versions/v/specs/s.yaml@ab12"
    ["projects/p/apis/a/versions/v/specs/s.yaml@ab12", "p", "a", "v", "s.yaml"] (by decide)

theorem MatchString_iff (re : Regexp) (path : String) :
    MatchString re path = true ↔
      ∃ sh ∈ re.alts, (matchSegs sh (splitSlash path.data)).isSome = true := by
  simp [MatchString, FindStringSubmatch]

theorem matchSegs_extend (sh tl : List Seg) (parent rest : List Char) (m2 : List String)
    (h : (matchSegs sh (splitSlash parent)).isSome = true)
    (h2 : matchSegs tl (splitSlash rest) = some m2) :
    (matchSegs (sh ++ tl) (splitSlash (parent ++ '/' :: rest))).isSome = true := by
  obtain ⟨m, hm⟩ := Option.isSome_iff_exists.1 h
  rw [splitSlash_append_slash, matchSegs_append sh tl _ _ m m2 hm h2]
  rfl

theorem parent_shape_of_name (parent : String)
    (h : MatchString ProjectRegexp parent = true ∨ MatchString ApiRegexp parent = true ∨
      MatchString VersionRegexp parent = true ∨ MatchString SpecRegexp parent = true) :
    ∃ sh ∈ parentShapes, (matchSegs sh (splitSlash parent.data)).isSome = true := by
  simp only [MatchString_iff, ProjectRegexp, ApiRegexp, VersionRegexp, SpecRegexp,
    List.mem_singleton, exists_eq_left] at h
  rcases h with h | h | h | h
  · exact ⟨projectShape, by simp [parentShapes], h⟩
  · exact ⟨apiShape, by simp [parentShapes], h⟩
  · exact ⟨versionShape, by simp [parentShapes], h⟩
  · exact ⟨specShape, by simp [parentShapes], h⟩

theorem artifacts_of_parent (parent : String)
    (h : ∃ sh ∈ parentShapes, (matchSegs sh (splitSlash parent.data)).isSome = true) :
    MatchString ArtifactsRegexp (parent ++ "/artifacts") = true := by
  obtain ⟨sh, hmem, hsh⟩ := h
  rw [MatchString_iff]
  refine ⟨sh ++ [Seg.lit "artifacts"], List.mem_map.2 ⟨sh, hmem, rfl⟩, ?_⟩
  have hd : (parent ++ "/artifacts").data = parent.data ++ '/' :: "artifacts".data := by
    simp [String.data_append]
  rw [hd]
  exact matchSegs_extend sh _ _ _ [] hsh (by decide)

theorem artifact_of_parent (parent x : String)
    (h : ∃ sh ∈ parentShapes, (matchSegs sh (splitSlash parent.data)).isSome = true)
    (hx : validId x.data = true) :
    MatchString ArtifactRegexp (parent ++ "/artifacts/" ++ x) = true := by
  obtain ⟨sh, hmem, hsh⟩ := h
  rw [MatchString_iff]
  refine ⟨sh ++ [Seg.lit "artifacts", Seg.id], List.mem_map.2 ⟨sh, hmem, rfl⟩, ?_⟩
  have hd : (parent ++ "/artifacts/" ++ x).data
      = parent.data ++ '/' :: ("artifacts".data ++ '/' :: x.data) := by
    simp [String.data_append]
  rw [hd]
  refine matchSegs_extend sh _ _ _ [x] hsh ?_
  rw [splitSlash_append _ _ (by decide), splitSlash_of_not_mem _ (validId_no_slash _ hx)]
  simp [matchSegs, hx]

theorem project_name_accepted (P : String) (hP : validId P.data = true) :
    MatchString ProjectRegexp ("projects/" ++ P) = true := by
  rw [MatchString_iff]
  refine ⟨projectShape, by simp [ProjectRegexp], ?_⟩
  have hd : ("projects/" ++ P).data = "projects".data ++ '/' :: P.data := by
    simp [String.data_append]
  rw [hd, splitSlash_append _ _ (by decide), splitSlash_of_not_mem _ (validId_no_slash _ hP)]
  simp [projectShape, matchSegs, hP]

/-- C10: artifacts hang off any level of the hierarchy. For every parent that
is a project, api, version or spec name and every valid artifact ID `x`,
`ArtifactsRegexp` accepts `parent/artifacts` and `ArtifactRegexp` accepts
`parent/artifacts/x`; neither accepts `-`; and the name
`projects/P/artifacts/N` that the manifest upload builds is accepted by
`ArtifactRegexp` whenever `P` and `N` are valid IDs. -/
theorem artifacts_under_any_parent :
    (∀ parent x : String,
      (MatchString ProjectRegexp parent = true ∨ MatchString ApiRegexp parent = true ∨
        MatchString VersionRegexp parent = true ∨ MatchString SpecRegexp parent = true) →
      validId x.data = true →
      MatchString ArtifactsRegexp (parent ++ "/artifacts") = true ∧
      MatchString ArtifactRegexp (parent ++ "/artifacts/" ++ x) = true) ∧
    MatchString ArtifactsRegexp "-" = false ∧
    MatchString ArtifactRegexp "-" = false ∧
    (∀ P N : String, validId P.data = true → validId N.data = true →
      MatchString ArtifactRegexp ("projects/" ++ P ++ "/artifacts/" ++ N) = true) := by
  refine ⟨fun parent x h hx => ?_, by decide, by decide, fun P N hP hN => ?_⟩
  · exact ⟨artifacts_of_parent parent (parent_shape_of_name parent h),
      artifact_of_parent parent x (parent_shape_of_name parent h) hx⟩
  · exact artifact_of_parent ("projects/" ++ P) N
      (parent_shape_of_name _ (Or.inl (project_name_accepted P hP))) hN

/-- C10 at the version `projects/google/apis/sample/versions/v1` with the
artifact ID `test-artifact`, and at the manifest artifact of project `demo`. -/
theorem artifacts_under_any_parent_witness :
    (MatchString ArtifactsRegexp ("projects/google/apis/sample/versions/v1" ++ "/artifacts")
        = true ∧
      MatchString ArtifactRegexp
        ("projects/google/apis/sample/versions/v1" ++ "/artifacts/" ++ "test-artifact")
        = true) ∧
    MatchString ArtifactRegexp ("projects/" ++ "demo" ++ "/artifacts/" ++ "test-manifest")
      = true :=
  ⟨artifacts_under_any_parent.1 "projects/google/apis/sample/versions/v1" "test-artifact"
      (Or.inr (Or.inr (Or.inl (by decide)))) (by decide),
   artifacts_under_any_parent.2.2.2 "demo" "test-manifest" (by decide) (by decide)⟩

/-! ## Listing resources: the verified properties -/

/-- C3, as stated, fails: the version pattern with the wildcard at its three
ID positions and the string `invalid` are accepted by none of the six patterns
`ListResources` dispatches on, and `ListResources` answers both with an empty
result and the nil error. -/
theorem ListResources_unsupported_pattern_nil_error :
    (∀ re ∈ [ApisRegexp, SpecsRegexp, ArtifactsRegexp, ApiRegexp, SpecRegexp, ArtifactRegexp],
      FindStringSubmatch re "projects/-/apis/-/versions/-" = none ∧
      FindStringSubmatch re "invalid" = none) ∧
    ListResources emptyLister "projects/-/apis/-/versions/-" "" = ([], none) ∧
    ListResources emptyLister "invalid" "" = ([], none) := by
  refine ⟨by decide, ?_, ?_⟩
  · have h1 : FindStringSubmatch ApisRegexp "projects/-/apis/-/versions/-" = none := by decide
    have h2 : FindStringSubmatch SpecsRegexp "projects/-/apis/-/versions/-" = none := by decide
    have h3 : FindStringSubmatch ArtifactsRegexp "projects/-/apis/-/versions/-" = none := by
      decide
    have h4 : FindStringSubmatch ApiRegexp "projects/-/apis/-/versions/-" = none := by decide
    have h5 : FindStringSubmatch SpecRegexp "projects/-/apis/-/versions/-" = none := by decide
    have h6 : FindStringSubmatch ArtifactRegexp "projects/-/apis/-/versions/-" = none := by
      decide
    simp [ListResources, listNamed, listCollections, h1, h2, h3, h4, h5, h6]
  · have h1 : FindStringSubmatch ApisRegexp "invalid" = none := by decide
    have h2 : FindStringSubmatch SpecsRegexp "invalid" = none := by decide
    have h3 : FindStringSubmatch ArtifactsRegexp "invalid" = none := by decide
    have h4 : FindStringSubmatch ApiRegexp "invalid" = none := by decide
    have h5 : FindStringSubmatch SpecRegexp "invalid" = none := by decide
    have h6 : FindStringSubmatch ArtifactRegexp "invalid" = none := by decide
    simp [ListResources, listNamed, listCollections, h1, h2, h3, h4, h5, h6]

/-- C3, amended: for a pattern accepted by none of the six patterns
`ListResources` dispatches on, no listing function is consulted and the
result is the empty slice together with the nil error, whatever the listing
functions and the filter are. -/
theorem ListResources_unsupported_pattern {ρ : Type} (c : Lister ρ) (pattern filter : String)
    (h : ∀ re ∈ [ApisRegexp, SpecsRegexp, ArtifactsRegexp, ApiRegexp, SpecRegexp,
      ArtifactRegexp], FindStringSubmatch re pattern = none) :
    ListResources c pattern filter = ([], none) := by
  have h1 := h ApisRegexp (by simp)
  have h2 := h SpecsRegexp (by simp)
  have h3 := h ArtifactsRegexp (by simp)
  have h4 := h ApiRegexp (by simp)
  have h5 := h SpecRegexp (by simp)
  have h6 := h ArtifactRegexp (by simp)
  simp [ListResources, listNamed, listCollections, h1, h2, h3, h4, h5, h6]

/-- C3, amended, at the project name `projects/google` with a lister whose
every call fails. -/
theorem ListResources_unsupported_pattern_witness :
    ListResources
      ({ ListAPIs := fun _ _ => ([], some ⟨Code.Unavailable, "down"⟩)
         ListSpecs := fun _ _ => ([], some ⟨Code.Unavailable, "down"⟩)
         ListArtifacts := fun _ _ _ => ([], some ⟨Code.Unavailable, "down"⟩) } : Lister String)
      "projects/google" "" = ([], none) :=
  ListResources_unsupported_pattern _ "projects/google" "" (by decide)

/-! ## Manifests: the verified properties -/

/-- C4 is not met by the code: the file `bad.yaml` decodes to a manifest
whose pattern and source expression are both `invalid`; `ReadManifestProto`
returns that manifest, not an error, and the upload command goes on to upload
it. The validation is announced in the source (`TODO: Add validation for
pattern values and actions`) and not written. -/
theorem ReadManifestProto_returns_invalid_manifest :
    ReadManifestProto demoFiles "bad.yaml" = .ok badManifest ∧
    validManifest badManifest = false ∧
    (uploadManifestCmd demoEnv ["bad.yaml"] "demo").1 = Outcome.done ∧
    (uploadManifestCmd demoEnv ["bad.yaml"] "demo").2.length = 1 := by
  refine ⟨by rfl, by decide, by rfl, by rfl⟩

/-- What `ReadManifestProto` does check: it returns a manifest exactly when
the file can be read and its contents decode, and then it is the decoded
manifest as it stands, no pattern and no source expression being looked at;
and when it returns an error, the upload command ends in `log.Fatal` without
having called `SetArtifact`. -/
theorem ReadManifestProto_decodes_only :
    (∀ (fs : ManifestFiles) (filename : String) (m : Manifest),
      ReadManifestProto fs filename = .ok m ↔
        ∃ b, fs.ReadFile filename = .ok b ∧ fs.Unmarshal (fs.YAMLToJSON b).1 = .ok m) ∧
    (∀ (env : UploadEnv) (path : String) (rest : List String) (project : String) (e : Error),
      ReadManifestProto env.files path = .error e →
        (uploadManifestCmd env (path :: rest) project).1 ≠ Outcome.done ∧
        (uploadManifestCmd env (path :: rest) project).2 = []) := by
  constructor
  · intro fs filename m
    unfold ReadManifestProto
    cases hr : fs.ReadFile filename with
    | error e => simp
    | ok b =>
      cases hu : fs.Unmarshal (fs.YAMLToJSON b).1 with
      | error e => simp [hu]
      | ok m0 => simp [hu]
  · intro env path rest project e he
    unfold uploadManifestCmd
    by_cases h1 : path = ""
    · simp [h1]
    · by_cases h2 : project = ""
      · simp [h1, h2]
      · simp [h1, h2, he]

/-- The upload command at the missing file `missing.yaml`. -/
theorem ReadManifestProto_decodes_only_witness :
    (uploadManifestCmd demoEnv ("missing.yaml" :: []) "demo").1 ≠ Outcome.done ∧
    (uploadManifestCmd demoEnv ("missing.yaml" :: []) "demo").2 = [] :=
  ReadManifestProto_decodes_only.2 demoEnv "missing.yaml" [] "demo"
    ⟨Code.Unknown, "open missing.yaml: no such file"⟩ (by rfl)

/-- C8: the manifest upload round-trips. For a non-empty file path and
project ID `P`, when `ReadManifestProto` reads the manifest `M`, the client
is made and `proto.Unmarshal` decodes what `proto.Marshal` wrote for `M`,
the command issues exactly one `SetArtifact` call; its artifact is named
`projects/P/artifacts/M.Name`, has the mime type of the Manifest message
type, and its contents decode to `M`; and the command ends normally exactly
when that call succeeds. -/
theorem manifest_upload_round_trip (env : UploadEnv) (Unmarshal : Bytes → Option Manifest)
    (P path : String) (rest : List String) (M : Manifest)
    (hpath : path ≠ "") (hP : P ≠ "")
    (hread : ReadManifestProto env.files path = .ok M)
    (hclient : env.NewClient = none)
    (hcodec : Unmarshal (env.Marshal M).1 = some M) :
    ∃ a : Artifact,
      (uploadManifestCmd env (path :: rest) P).2 = [a] ∧
      a.Name = "projects/" ++ P ++ "/artifacts/" ++ M.Name ∧
      a.MimeType = env.MimeTypeForMessageType
        "google.cloud.apigee.registry.applications.v1alpha1.Manifest" ∧
      Unmarshal a.Contents = some M ∧
      ((uploadManifestCmd env (path :: rest) P).1 = Outcome.done ↔
        env.SetArtifact a = none) := by
  refine ⟨{ Name := "projects/" ++ P ++ "/artifacts/" ++ M.Name
            MimeType := env.MimeTypeForMessageType
              "google.cloud.apigee.registry.applications.v1alpha1.Manifest"
            Contents := (env.Marshal M).1 }, ?_, rfl, rfl, hcodec, ?_⟩
  · unfold uploadManifestCmd
    simp only [hpath, hP, hread, hclient, if_false]
    split <;> rfl
  · unfold uploadManifestCmd
    simp only [hpath, hP, hread, hclient, if_false]
    split
    · next e he => simp [he]
    · next he => simp [he]

/-- C8 at the manifest and the project of `TestManifestUpload`. -/
theorem manifest_upload_round_trip_witness :
    ∃ a : Artifact,
      (uploadManifestCmd demoEnv ("manifest_test.yaml" :: []) "upload-manifest-demo").2 = [a] ∧
      a.Name = "projects/" ++ "upload-manifest-demo" ++ "/artifacts/" ++ testManifest.Name ∧
      a.MimeType = demoEnv.MimeTypeForMessageType
        "google.cloud.apigee.registry.applications.v1alpha1.Manifest" ∧
      demoUnmarshal a.Contents = some testManifest ∧
      ((uploadManifestCmd demoEnv ("manifest_test.yaml" :: []) "upload-manifest-demo").1
          = Outcome.done ↔
        demoEnv.SetArtifact a = none) :=
  manifest_upload_round_trip demoEnv demoUnmarshal "upload-manifest-demo" "manifest_test.yaml"
    [] testManifest (by decide) (by decide) (by rfl) rfl (by rfl)

/-! ## Uploading protos: lemmas on the three steps -/

theorem NotFound_none : NotFound none = false := rfl

theorem createAPI_fst {σ : Type} (c : Client σ) (task : uploadProtoTask) (w : World σ) :
    (createAPI c task w).1 =
      if NotFound (c.call w.registry (getApiCall task)).1 then none
      else (c.call w.registry (getApiCall task)).1 := by
  unfold createAPI
  by_cases h : NotFound (c.call w.registry (getApiCall task)).1 = true
  · simp [World.issue, h]
  · by_cases h2 : (c.call w.registry (getApiCall task)).1 = none
    · simp [World.issue, h2, NotFound_none]
    · simp [World.issue, h, h2]

theorem createAPI_trace {σ : Type} (c : Client σ) (task : uploadProtoTask) (w : World σ) :
    (createAPI c task w).2.trace =
      w.trace ++ getApiCall task ::
        (if NotFound (c.call w.registry (getApiCall task)).1 then [createApiCall task]
         else []) := by
  unfold createAPI
  by_cases h : NotFound (c.call w.registry (getApiCall task)).1 = true
  · simp [World.issue, World.say, h]
  · by_cases h2 : (c.call w.registry (getApiCall task)).1 = none
    · simp [World.issue, h2, NotFound_none]
    · simp [World.issue, h, h2]

theorem createAPI_registry {σ : Type} (c : Client σ) (task : uploadProtoTask) (w : World σ) :
    (createAPI c task w).2.registry =
      if NotFound (c.call w.registry (getApiCall task)).1 then
        (c.call (c.call w.registry (getApiCall task)).2 (createApiCall task)).2
      else (c.call w.registry (getApiCall task)).2 := by
  unfold createAPI
  by_cases h : NotFound (c.call w.registry (getApiCall task)).1 = true
  · simp [World.issue, World.say, h]
  · by_cases h2 : (c.call w.registry (getApiCall task)).1 = none
    · simp [World.issue, h2, NotFound_none]
    · simp [World.issue, h, h2]

theorem createVersion_fst {σ : Type} (c : Client σ) (task : uploadProtoTask) (w : World σ) :
    (createVersion c task w).1 =
      if NotFound (c.call w.registry (getVersionCall task)).1 then none
      else (c.call w.registry (getVersionCall task)).1 := by
  unfold createVersion
  by_cases h : NotFound (c.call w.registry (getVersionCall task)).1 = true
  · simp [World.issue, h]
  · by_cases h2 : (c.call w.registry (getVersionCall task)).1 = none
    · simp [World.issue, h2, NotFound_none]
    · simp [World.issue, h, h2]

theorem createVersion_trace {σ : Type} (c : Client σ) (task : uploadProtoTask) (w : World σ) :
    (createVersion c task w).2.trace =
      w.trace ++ getVersionCall task ::
        (if NotFound (c.call w.registry (getVersionCall task)).1 then [createVersionCall task]
         else []) := by
  unfold createVersion
  by_cases h : NotFound (c.call w.registry (getVersionCall task)).1 = true
  · simp [World.issue, World.say, h]
  · by_cases h2 : (c.call w.registry (getVersionCall task)).1 = none
    · simp [World.issue, h2, NotFound_none]
    · simp [World.issue, h, h2]

theorem createVersion_registry {σ : Type} (c : Client σ) (task : uploadProtoTask)
    (w : World σ) :
    (createVersion c task w).2.registry =
      if NotFound (c.call w.registry (getVersionCall task)).1 then
        (c.call (c.call w.registry (getVersionCall task)).2 (createVersionCall task)).2
      else (c.call w.registry (getVersionCall task)).2 := by
  unfold createVersion
  by_cases h : NotFound (c.call w.registry (getVersionCall task)).1 = true
  · simp [World.issue, World.say, h]
  · by_cases h2 : (c.call w.registry (getVersionCall task)).1 = none
    · simp [World.issue, h2, NotFound_none]
    · simp [World.issue, h, h2]

theorem createSpec_fst {σ : Type} (c : Client σ) (fs : ProtoFiles) (task : uploadProtoTask)
    (w : World σ) :
    (createSpec c fs task w).1 =
      if NotFound (c.call w.registry (getSpecCall task)).1 then none
      else (c.call w.registry (getSpecCall task)).1 := by
  unfold createSpec
  by_cases h : NotFound (c.call w.registry (getSpecCall task)).1 = true
  · simp [World.issue, zipArchiveOfPath, h]
  · by_cases h2 : (c.call w.registry (getSpecCall task)).1 = none
    · simp [World.issue, h2, NotFound_none]
    · simp [World.issue, h, h2]

theorem createSpec_trace {σ : Type} (c : Client σ) (fs : ProtoFiles) (task : uploadProtoTask)
    (w : World σ) :
    (createSpec c fs task w).2.trace =
      w.trace ++ getSpecCall task ::
        (if NotFound (c.call w.registry (getSpecCall task)).1 then [createSpecCall fs task]
         else []) := by
  unfold createSpec
  by_cases h : NotFound (c.call w.registry (getSpecCall task)).1 = true
  · simp [World.issue, World.say, zipArchiveOfPath, h]
  · by_cases h2 : (c.call w.registry (getSpecCall task)).1 = none
    · simp [World.issue, h2, NotFound_none]
    · simp [World.issue, h, h2]

theorem createSpec_registry {σ : Type} (c : Client σ) (fs : ProtoFiles)
    (task : uploadProtoTask) (w : World σ) :
    (createSpec c fs task w).2.registry =
      if NotFound (c.call w.registry (getSpecCall task)).1 then
        (c.call (c.call w.registry (getSpecCall task)).2 (createSpecCall fs task)).2
      else (c.call w.registry (getSpecCall task)).2 := by
  unfold createSpec
  by_cases h : NotFound (c.call w.registry (getSpecCall task)).1 = true
  · simp [World.issue, World.say, zipArchiveOfPath, h]
  · by_cases h2 : (c.call w.registry (getSpecCall task)).1 = none
    · simp [World.issue, h2, NotFound_none]
    · simp [World.issue, h, h2]

theorem Run_fst {σ : Type} (c : Client σ) (fs : ProtoFiles) (task : uploadProtoTask)
    (w : World σ) :
    (Run c fs task w).1 =
      if (stepAPI c task w).1 ≠ none then (stepAPI c task w).1
      else if (stepVersion c task w).1 ≠ none then (stepVersion c task w).1
      else (stepSpec c fs task w).1 := by
  unfold Run
  split
  · rfl
  · split <;> rfl

theorem Run_of_steps_ok {σ : Type} (c : Client σ) (fs : ProtoFiles) (task : uploadProtoTask)
    (w : World σ) (h1 : (stepAPI c task w).1 = none) (h2 : (stepVersion c task w).1 = none) :
    Run c fs task w = stepSpec c fs task w := by
  simp [Run, h1, h2]

theorem step_error_is_get_error {σ : Type} (c : Client σ) (s : σ) (r : Call) (e : Error)
    (h : (if NotFound (c.call s r).1 then none else (c.call s r).1) = some e)
    (hr : r.isCreate = false) :
    NotFound (some e) = false ∧ ∃ s r, r.isCreate = false ∧ (c.call s r).1 = some e := by
  cases hn : NotFound (c.call s r).1 with
  | true => simp [hn] at h
  | false =>
    simp only [hn, Bool.false_eq_true, if_false] at h
    rw [h] at hn
    exact ⟨hn, s, r, hr, h⟩

/-! ## Uploading protos: the verified properties -/

/-- C5: resources are created idempotently. In each of `createAPI`,
`createVersion` and `createSpec` the calls issued are the `Get` call,
followed by the `Create` call if and only if the `Get` call answered
`NotFound`; so when the registry answers the three `Get` calls of a task with
success (the API, the version and the spec `protos.zip` exist), `Run` issues
those three `Get` calls and no `Create` call, and returns nil. -/
theorem create_only_after_not_found {σ : Type} (c : Client σ) (fs : ProtoFiles)
    (task : uploadProtoTask) (w : World σ) :
    (createAPI c task w).2.trace =
      w.trace ++ getApiCall task ::
        (if NotFound (c.call w.registry (getApiCall task)).1 then [createApiCall task]
         else []) ∧
    (createVersion c task w).2.trace =
      w.trace ++ getVersionCall task ::
        (if NotFound (c.call w.registry (getVersionCall task)).1 then [createVersionCall task]
         else []) ∧
    (createSpec c fs task w).2.trace =
      w.trace ++ getSpecCall task ::
        (if NotFound (c.call w.registry (getSpecCall task)).1 then [createSpecCall fs task]
         else []) ∧
    ((getApiCall task).isCreate = false ∧ (getVersionCall task).isCreate = false ∧
      (getSpecCall task).isCreate = false ∧ (createApiCall task).isCreate = true ∧
      (createVersionCall task).isCreate = true ∧ (createSpecCall fs task).isCreate = true) ∧
    ((∀ s, (c.call s (getApiCall (computeIDs task))).1 = none) →
      (∀ s, (c.call s (getVersionCall (computeIDs task))).1 = none) →
      (∀ s, (c.call s (getSpecCall (computeIDs task))).1 = none) →
      (Run c fs task w).1 = none ∧
      (Run c fs task w).2.trace =
        w.trace ++ [getApiCall (computeIDs task), getVersionCall (computeIDs task),
          getSpecCall (computeIDs task)] ∧
      ∀ r ∈ (Run c fs task w).2.trace, r ∈ w.trace ∨ r.isCreate = false) := by
  refine ⟨createAPI_trace c task w, createVersion_trace c task w, createSpec_trace c fs task w,
    ⟨rfl, rfl, rfl, rfl, rfl, rfl⟩, ?_⟩
  intro ha hv hs
  have h1 : (stepAPI c task w).1 = none := by
    simp [stepAPI, createAPI_fst, ha, NotFound_none]
  have h2 : (stepVersion c task w).1 = none := by
    simp [stepVersion, createVersion_fst, hv, NotFound_none]
  have h3 : (stepSpec c fs task w).1 = none := by
    simp [stepSpec, createSpec_fst, hs, NotFound_none]
  have ht : (Run c fs task w).2.trace =
      w.trace ++ [getApiCall (computeIDs task), getVersionCall (computeIDs task),
        getSpecCall (computeIDs task)] := by
    rw [Run_of_steps_ok c fs task w h1 h2]
    simp [stepSpec, stepVersion, stepAPI, createSpec_trace, createVersion_trace,
      createAPI_trace, ha, hv, hs, NotFound_none, World.say]
  refine ⟨by rw [Run_of_steps_ok c fs task w h1 h2]; exact h3, ht, ?_⟩
  intro r hr
  rw [ht] at hr
  simp only [List.mem_append, List.mem_cons, List.mem_singleton, List.not_mem_nil,
    or_false] at hr
  rcases hr with hr | rfl | rfl | rfl
  · exact Or.inl hr
  · exact Or.inr rfl
  · exact Or.inr rfl
  · exact Or.inr rfl

/-- C5 at the task for `googleapis/google/example/v1` against a registry in
which every `Get` call succeeds. -/
theorem create_only_after_not_found_witness :
    (Run (fixedClient none none) demoProtoFiles demoTask World.start).1 = none ∧
    (Run (fixedClient none none) demoProtoFiles demoTask World.start).2.trace =
      World.start.trace ++ [getApiCall (computeIDs demoTask),
        getVersionCall (computeIDs demoTask), getSpecCall (computeIDs demoTask)] ∧
    ∀ r ∈ (Run (fixedClient none none) demoProtoFiles demoTask World.start).2.trace,
      r ∈ World.start.trace ∨ r.isCreate = false :=
  (create_only_after_not_found (fixedClient none none) demoProtoFiles demoTask
    World.start).2.2.2.2 (fun _ => rfl) (fun _ => rfl) (fun _ => rfl)

/-- C6: `AlreadyExists` on create is treated as success. In each of the three
steps, when the `Get` call answers `NotFound` and the `Create` call answers
`AlreadyExists`, the step returns nil, in the registry state the `Create`
call has left and with both calls issued: the same result as when the
`Create` call succeeds, up to the line written to the log. `Run` then goes on:
after `createAPI` with `createVersion`, after `createVersion` with
`createSpec`, and after `createSpec` it returns nil. -/
theorem already_exists_is_success {σ : Type} (c : Client σ) (fs : ProtoFiles)
    (task : uploadProtoTask) (w : World σ) :
    (NotFound (c.call w.registry (getApiCall task)).1 = true →
      (AlreadyExists (c.call (c.call w.registry (getApiCall task)).2 (createApiCall task)).1
          = true →
        createAPI c task w = (none,
          { registry := (c.call (c.call w.registry (getApiCall task)).2 (createApiCall task)).2
            trace := w.trace ++ [getApiCall task, createApiCall task]
            log := w.log ++
              [LogLine.alreadyExists ("projects/" ++ task.projectID) task.apiID] })) ∧
      ((c.call (c.call w.registry (getApiCall task)).2 (createApiCall task)).1 = none →
        createAPI c task w = (none,
          { registry := (c.call (c.call w.registry (getApiCall task)).2 (createApiCall task)).2
            trace := w.trace ++ [getApiCall task, createApiCall task]
            log := w.log ++ [LogLine.created] }))) ∧
    (NotFound (c.call w.registry (getVersionCall task)).1 = true →
      (AlreadyExists
          (c.call (c.call w.registry (getVersionCall task)).2 (createVersionCall task)).1
          = true →
        createVersion c task w = (none,
          { registry :=
              (c.call (c.call w.registry (getVersionCall task)).2 (createVersionCall task)).2
            trace := w.trace ++ [getVersionCall task, createVersionCall task]
            log := w.log ++
              [LogLine.alreadyExists ("projects/" ++ task.projectID ++ "/apis/" ++ task.apiID)
                task.versionID] })) ∧
      ((c.call (c.call w.registry (getVersionCall task)).2 (createVersionCall task)).1 = none →
        createVersion c task w = (none,
          { registry :=
              (c.call (c.call w.registry (getVersionCall task)).2 (createVersionCall task)).2
            trace := w.trace ++ [getVersionCall task, createVersionCall task]
            log := w.log ++ [LogLine.created] }))) ∧
    (NotFound (c.call w.registry (getSpecCall task)).1 = true →
      (AlreadyExists
          (c.call (c.call w.registry (getSpecCall task)).2 (createSpecCall fs task)).1
          = true →
        createSpec c fs task w = (none,
          { registry :=
              (c.call (c.call w.registry (getSpecCall task)).2 (createSpecCall fs task)).2
            trace := w.trace ++ [getSpecCall task, createSpecCall fs task]
            log := w.log ++
              [LogLine.alreadyExists
                ("projects/" ++ task.projectID ++ "/apis/" ++ task.apiID ++ "/versions/"
                  ++ task.versionID) "protos.zip"] })) ∧
      ((c.call (c.call w.registry (getSpecCall task)).2 (createSpecCall fs task)).1 = none →
        createSpec c fs task w = (none,
          { registry :=
              (c.call (c.call w.registry (getSpecCall task)).2 (createSpecCall fs task)).2
            trace := w.trace ++ [getSpecCall task, createSpecCall fs task]
            log := w.log ++ [LogLine.created] }))) ∧
    (NotFound (c.call w.registry (getApiCall (computeIDs task))).1 = true →
      AlreadyExists (c.call (c.call w.registry (getApiCall (computeIDs task))).2
        (createApiCall (computeIDs task))).1 = true →
      Run c fs task w =
        if (stepVersion c task w).1 ≠ none then stepVersion c task w
        else stepSpec c fs task w) ∧
    ((stepAPI c task w).1 = none →
      NotFound (c.call (stepAPI c task w).2.registry (getVersionCall (computeIDs task))).1
        = true →
      AlreadyExists (c.call
        (c.call (stepAPI c task w).2.registry (getVersionCall (computeIDs task))).2
        (createVersionCall (computeIDs task))).1 = true →
      Run c fs task w = stepSpec c fs task w) ∧
    ((stepAPI c task w).1 = none → (stepVersion c task w).1 = none →
      NotFound (c.call (stepVersion c task w).2.registry (getSpecCall (computeIDs task))).1
        = true →
      AlreadyExists (c.call
        (c.call (stepVersion c task w).2.registry (getSpecCall (computeIDs task))).2
        (createSpecCall fs (computeIDs task))).1 = true →
      (Run c fs task w).1 = none) := by
  refine ⟨fun hg => ⟨fun hc => ?_, fun hc => ?_⟩, fun hg => ⟨fun hc => ?_, fun hc => ?_⟩,
    fun hg => ⟨fun hc => ?_, fun hc => ?_⟩, fun hg _ => ?_, fun h1 hg _ => ?_,
    fun h1 h2 hg _ => ?_⟩
  · cases he : (c.call (c.call w.registry (getApiCall task)).2 (createApiCall task)).1 with
    | none => simp [he, AlreadyExists] at hc
    | some e =>
      rw [he] at hc
      simp [createAPI, World.issue, World.say, hg, he, logCreate, hc]
  · simp [createAPI, World.issue, World.say, hg, hc, logCreate]
  · cases he :
      (c.call (c.call w.registry (getVersionCall task)).2 (createVersionCall task)).1 with
    | none => simp [he, AlreadyExists] at hc
    | some e =>
      rw [he] at hc
      simp [createVersion, World.issue, World.say, hg, he, logCreate, hc]
  · simp [createVersion, World.issue, World.say, hg, hc, logCreate]
  · cases he :
      (c.call (c.call w.registry (getSpecCall task)).2 (createSpecCall fs task)).1 with
    | none => simp [he, AlreadyExists] at hc
    | some e =>
      rw [he] at hc
      simp [createSpec, zipArchiveOfPath, World.issue, World.say, hg, he, logCreate, hc]
  · simp [createSpec, zipArchiveOfPath, World.issue, World.say, hg, hc, logCreate]
  · have h1 : (stepAPI c task w).1 = none := by
      simp [stepAPI, createAPI_fst, World.say, hg]
    simp [Run, h1]
  · have h2 : (stepVersion c task w).1 = none := by
      simp [stepVersion, createVersion_fst, hg]
    exact Run_of_steps_ok c fs task w h1 h2
  · rw [Run_of_steps_ok c fs task w h1 h2]
    simp [stepSpec, createSpec_fst, hg]

/-- C6 at the task for `googleapis/google/example/v1` against a registry that
answers every `Get` call with `NotFound` and every `Create` call with
`AlreadyExists`. -/
theorem already_exists_is_success_witness :
    (Run (fixedClient (some ⟨Code.NotFound, "not found"⟩)
        (some ⟨Code.AlreadyExists, "already exists"⟩)) demoProtoFiles demoTask
      World.start).1 = none :=
  (already_exists_is_success (fixedClient (some ⟨Code.NotFound, "not found"⟩)
      (some ⟨Code.AlreadyExists, "already exists"⟩)) demoProtoFiles demoTask
    World.start).2.2.2.2.2 (by decide) (by decide) (by decide) (by decide)

/-- C7, as stated, fails: against a registry that answers every `Get` call
with `NotFound` and every `Create` call with `PermissionDenied`, `Run` issues
the three `Create` calls, logs three failures and returns nil. -/
theorem Run_nil_after_failed_creates :
    (Run (fixedClient (some ⟨Code.NotFound, "not found"⟩)
        (some ⟨Code.PermissionDenied, "denied"⟩)) demoProtoFiles demoTask World.start).1
      = none ∧
    (Run (fixedClient (some ⟨Code.NotFound, "not found"⟩)
        (some ⟨Code.PermissionDenied, "denied"⟩)) demoProtoFiles demoTask World.start).2.trace
      = [Call.GetApi "projects/demo/apis/google-example",
         Call.CreateApi "projects/demo" "google-example" "google-example",
         Call.GetVersion "projects/demo/apis/google-example/versions/v1",
         Call.CreateVersion "projects/demo/apis/google-example" "v1",
         Call.GetSpec "projects/demo/apis/google-example/versions/v1/specs/protos.zip",
         Call.CreateSpec "projects/demo/apis/google-example/versions/v1" "protos.zip"
           { Style := "proto+zip", Filename := "protos.zip", Contents := [] }] ∧
    (Run (fixedClient (some ⟨Code.NotFound, "not found"⟩)
        (some ⟨Code.PermissionDenied, "denied"⟩)) demoProtoFiles demoTask World.start).2.log
      = [LogLine.ids "google-example" "v1",
         LogLine.failedToCreate "projects/demo" "google-example"
           ⟨Code.PermissionDenied, "denied"⟩,
         LogLine.failedToCreate "projects/demo/apis/google-example" "v1"
           ⟨Code.PermissionDenied, "denied"⟩,
         LogLine.failedToCreate "projects/demo/apis/google-example/versions/v1" "protos.zip"
           ⟨Code.PermissionDenied, "denied"⟩] := by
  refine ⟨by decide, by decide, by decide⟩

/-- C7, amended: each step returns the error of its `Get` call unless that
error is `NotFound`, and never the error of its `Create` call; `Run` returns
the first error of its steps. So every error `Run` returns is the answer of a
`Get` call and is not `NotFound`, and `Run` returns nil whenever every `Get`
call answers nil or `NotFound`, whatever the `Create` calls answer. -/
theorem Run_error_is_get_error {σ : Type} (c : Client σ) (fs : ProtoFiles)
    (task : uploadProtoTask) (w : World σ) :
    ((createAPI c task w).1 =
      if NotFound (c.call w.registry (getApiCall task)).1 then none
      else (c.call w.registry (getApiCall task)).1) ∧
    ((createVersion c task w).1 =
      if NotFound (c.call w.registry (getVersionCall task)).1 then none
      else (c.call w.registry (getVersionCall task)).1) ∧
    ((createSpec c fs task w).1 =
      if NotFound (c.call w.registry (getSpecCall task)).1 then none
      else (c.call w.registry (getSpecCall task)).1) ∧
    ((Run c fs task w).1 =
      if (stepAPI c task w).1 ≠ none then (stepAPI c task w).1
      else if (stepVersion c task w).1 ≠ none then (stepVersion c task w).1
      else (stepSpec c fs task w).1) ∧
    (∀ e, (Run c fs task w).1 = some e →
      NotFound (some e) = false ∧ ∃ s r, r.isCreate = false ∧ (c.call s r).1 = some e) ∧
    ((∀ s r, r.isCreate = false →
        (c.call s r).1 = none ∨ NotFound (c.call s r).1 = true) →
      (Run c fs task w).1 = none) := by
  refine ⟨createAPI_fst c task w, createVersion_fst c task w, createSpec_fst c fs task w,
    Run_fst c fs task w, ?_, ?_⟩
  · intro e he
    rw [Run_fst] at he
    by_cases h1 : (stepAPI c task w).1 = none
    · by_cases h2 : (stepVersion c task w).1 = none
      · simp only [h1, h2, ne_eq, not_true_eq_false, if_false] at he
        rw [stepSpec, createSpec_fst] at he
        exact step_error_is_get_error c _ _ e he rfl
      · simp only [h1, h2, ne_eq, not_true_eq_false, not_false_eq_true, if_false,
          if_true] at he
        rw [stepVersion, createVersion_fst] at he
        exact step_error_is_get_error c _ _ e he rfl
    · simp only [h1, ne_eq, not_false_eq_true, if_true] at he
      rw [stepAPI, createAPI_fst] at he
      exact step_error_is_get_error c _ _ e he rfl
  · intro h
    have key : ∀ s r, r.isCreate = false →
        (if NotFound (c.call s r).1 then none else (c.call s r).1) = none := by
      intro s r hr
      rcases h s r hr with h0 | h0
      · simp [h0]
      · simp [h0]
    have h1 : (stepAPI c task w).1 = none := by
      rw [stepAPI, createAPI_fst]; exact key _ _ rfl
    have h2 : (stepVersion c task w).1 = none := by
      rw [stepVersion, createVersion_fst]; exact key _ _ rfl
    rw [Run_of_steps_ok c fs task w h1 h2, stepSpec, createSpec_fst]
    exact key _ _ rfl

/-- C7, amended, at a registry that answers every `Get` call with `NotFound`
and every `Create` call with `Unavailable`. -/
theorem Run_error_is_get_error_witness :
    (Run (fixedClient (some ⟨Code.NotFound, "not found"⟩)
        (some ⟨Code.Unavailable, "unavailable"⟩)) demoProtoFiles demoTask World.start).1
      = none :=
  (Run_error_is_get_error (fixedClient (some ⟨Code.NotFound, "not found"⟩)
      (some ⟨Code.Unavailable, "unavailable"⟩)) demoProtoFiles demoTask
    World.start).2.2.2.2.2 (fun _ r hr => Or.inr (by simp [fixedClient, hr, NotFound]))

/-! ## Labels: lemmas -/

theorem getLabel_setLabel_same (k v : String) (L : Labels) :
    getLabel k (setLabel k v L) = some v := by
  induction L with
  | nil => simp [setLabel, getLabel]
  | cons p r ih =>
    obtain ⟨j, u⟩ := p
    by_cases h : j = k
    · simp [setLabel, getLabel, h]
    · simp [setLabel, getLabel, h, ih]

theorem getLabel_setLabel_other (k v j : String) (L : Labels) (h : j ≠ k) :
    getLabel j (setLabel k v L) = getLabel j L := by
  induction L with
  | nil => simp [setLabel, getLabel, Ne.symm h]
  | cons p r ih =>
    obtain ⟨i, u⟩ := p
    by_cases hi : i = k
    · subst hi
      simp [setLabel, getLabel, Ne.symm h]
    · by_cases hj : i = j
      · subst hj
        simp [setLabel, getLabel, hi]
      · simp [setLabel, getLabel, hi, hj, ih]

theorem getLabel_deleteLabel_same (k : String) (L : Labels) :
    getLabel k (deleteLabel k L) = none := by
  induction L with
  | nil => simp [deleteLabel, getLabel]
  | cons p r ih =>
    obtain ⟨j, u⟩ := p
    by_cases h : j = k
    · simp [deleteLabel, h, ih]
    · simp [deleteLabel, getLabel, h, ih]

theorem getLabel_deleteLabel_other (k j : String) (L : Labels) (h : j ≠ k) :
    getLabel j (deleteLabel k L) = getLabel j L := by
  induction L with
  | nil => simp [deleteLabel, getLabel]
  | cons p r ih =>
    obtain ⟨i, u⟩ := p
    by_cases hi : i = k
    · subst hi
      simp [deleteLabel, getLabel, Ne.symm h, ih]
    · by_cases hj : i = j
      · subst hj
        simp [deleteLabel, getLabel, hi]
      · simp [deleteLabel, getLabel, hi, hj, ih]

theorem takeWhile_ne_eq (k v : List Char) (h : '=' ∉ k) :
    (k ++ '=' :: v).takeWhile (· != '=') = k ∧
    (k ++ '=' :: v).dropWhile (· != '=') = '=' :: v := by
  induction k with
  | nil => simp [List.takeWhile, List.dropWhile]
  | cons c cs ih =>
    have hc : c ≠ '=' := fun e => h (by simp [e])
    have hcs : '=' ∉ cs := fun e => h (by simp [e])
    have hb : (c != '=') = true := by simp [hc]
    simp [List.takeWhile, List.dropWhile, hb, ih hcs]

theorem parseLabelArg_set (k v : String) (h : '=' ∉ k.data) :
    parseLabelArg (k ++ "=" ++ v) = LabelOp.set k v := by
  have hd : (k ++ "=" ++ v).data = k.data ++ '=' :: v.data := by
    simp [String.data_append]
  have hne : k ++ "=" ++ v ≠ "--overwrite" := by
    intro e
    have : '=' ∈ (k ++ "=" ++ v).data := by rw [hd]; simp
    rw [e] at this
    revert this
    decide
  have hc : (k.data ++ '=' :: v.data).contains '=' = true := by simp
  unfold parseLabelArg
  rw [if_neg hne, hd, if_pos hc, (takeWhile_ne_eq k.data v.data h).1,
    (takeWhile_ne_eq k.data v.data h).2]
  rfl

theorem parseLabelArg_clear (k : String) (h : '=' ∉ k.data) :
    parseLabelArg (k ++ "-") = LabelOp.clear k := by
  have hd : (k ++ "-").data = k.data ++ ['-'] := by
    simp [String.data_append]
  have hne : k ++ "-" ≠ "--overwrite" := by
    intro e
    have : (k ++ "-").data.getLast? = some '-' := by rw [hd]; simp
    rw [e] at this
    revert this
    decide
  have hc : ¬ ((k.data ++ ['-']).contains '=' = true) := by
    simp [h]
  unfold parseLabelArg
  rw [if_neg hne, hd, if_neg hc]
  simp

/-- C9: label updates are non-destructive unless `--overwrite` is given. For
every label map `L`, key `k` without `=` and value `v`: the argument `k=v`
adds `k → v` when `k` is absent from `L`; when `k` is present it leaves `L`
as it is without `--overwrite` and sets `k → v` with it; the argument `k-`
removes `k`; and no other key changes. The three invocations of `TestLabel`
give `{a:1, b:2}`, then `{a:3}`, then `{a:3}` again. -/
theorem label_updates_need_overwrite :
    (∀ (ow : Bool) (L : Labels) (k v : String), '=' ∉ k.data → getLabel k L = none →
      getLabel k (labelStep ow L (k ++ "=" ++ v)) = some v) ∧
    (∀ (L : Labels) (k v : String), '=' ∉ k.data → getLabel k L ≠ none →
      labelStep false L (k ++ "=" ++ v) = L ∧
      getLabel k (labelStep true L (k ++ "=" ++ v)) = some v) ∧
    (∀ (ow : Bool) (L : Labels) (k : String), '=' ∉ k.data →
      getLabel k (labelStep ow L (k ++ "-")) = none) ∧
    (∀ (ow : Bool) (L : Labels) (k v j : String), '=' ∉ k.data → j ≠ k →
      getLabel j (labelStep ow L (k ++ "=" ++ v)) = getLabel j L ∧
      getLabel j (labelStep ow L (k ++ "-")) = getLabel j L) ∧
    (∀ (args : List String) (L : Labels),
      labelCmd args L = args.foldl (labelStep (args.contains "--overwrite")) L) ∧
    labelCmd ["a=1", "b=2"] [] = [("a", "1"), ("b", "2")] ∧
    labelCmd ["a=3", "b-", "--overwrite"] [("a", "1"), ("b", "2")] = [("a", "3")] ∧
    labelCmd ["a=4"] [("a", "3")] = [("a", "3")] := by
  refine ⟨?_, ?_, ?_, ?_, fun _ _ => rfl, by decide, by decide, by decide⟩
  · intro ow L k v hk habs
    simp [labelStep, parseLabelArg_set k v hk, habs, getLabel_setLabel_same]
  · intro L k v hk hpres
    obtain ⟨u, hu⟩ := Option.ne_none_iff_exists'.1 hpres
    constructor
    · simp [labelStep, parseLabelArg_set k v hk, hu]
    · simp [labelStep, parseLabelArg_set k v hk, getLabel_setLabel_same]
  · intro ow L k hk
    simp [labelStep, parseLabelArg_clear k hk, getLabel_deleteLabel_same]
  · intro ow L k v j hk hj
    constructor
    · simp only [labelStep, parseLabelArg_set k v hk]
      split
      · rfl
      · exact getLabel_setLabel_other k v j L hj
    · simp [labelStep, parseLabelArg_clear k hk, getLabel_deleteLabel_other k j L hj]

/-- C9 at the label map `{env: prod}`: `tier=gold` is added, `env=test` is
ignored without `--overwrite`, and `env-` removes the key. -/
theorem label_updates_need_overwrite_witness :
    getLabel "tier" (labelStep false [("env", "prod")] ("tier" ++ "=" ++ "gold"))
      = some "gold" ∧
    (labelStep false [("env", "prod")] ("env" ++ "=" ++ "test") = [("env", "prod")] ∧
      getLabel "env" (labelStep true [("env", "prod")] ("env" ++ "=" ++ "test"))
        = some "test") ∧
    getLabel "env" (labelStep false [("env", "prod")] ("env" ++ "-")) = none :=
  ⟨label_updates_need_overwrite.1 false [("env", "prod")] "tier" "gold" (by decide)
      (by decide),
   label_updates_need_overwrite.2.1 [("env", "prod")] "env" "test" (by decide) (by decide),
   label_updates_need_overwrite.2.2.1 false [("env", "prod")] "env" (by decide)⟩

/-! ## Listing resources: which listing decides the error -/

theorem matchSegs_length (sh : List Seg) (l : List (List Char)) (m : List String)
    (h : matchSegs sh l = some m) : l.length = sh.length := by
  induction sh generalizing l m with
  | nil =>
    cases l with
    | nil => rfl
    | cons x xs => simp [matchSegs] at h
  | cons sg ps ih =>
    cases l with
    | nil => cases sg <;> simp [matchSegs] at h
    | cons x xs =>
      cases sg with
      | lit s =>
        by_cases hx : x = s.data
        · simp only [matchSegs, hx, if_true] at h
          simp [ih xs m h]
        · simp [matchSegs, hx] at h
      | id =>
        by_cases hx : validId x = true
        · simp only [matchSegs, hx, if_true, Option.map_eq_some'] at h
          obtain ⟨m0, hm, _⟩ := h
          simp [ih xs m0 hm]
        · simp [matchSegs, hx] at h
      | idRev =>
        cases hs : specId x with
        | none => simp [matchSegs, hs] at h
        | some i =>
          simp only [matchSegs, hs, Option.map_eq_some'] at h
          obtain ⟨m0, hm, _⟩ := h
          simp [ih xs m0 hm]

theorem FindStringSubmatch_length (re : Regexp) (path : String) (m : List String)
    (h : FindStringSubmatch re path = some m) :
    ∃ sh ∈ re.alts, (splitSlash path.data).length = sh.length := by
  simp only [FindStringSubmatch, Option.map_eq_some'] at h
  obtain ⟨m0, hm, _⟩ := h
  obtain ⟨sh, hmem, hsh⟩ := List.exists_of_findSome?_eq_some hm
  exact ⟨sh, hmem, matchSegs_length sh _ m0 hsh⟩

/-- With the patterns of package `names`, a collection name has an odd number
of segments and a resource name an even one: no pattern is accepted by one of
`ApisRegexp`, `SpecsRegexp`, `ArtifactsRegexp` and also by one of `ApiRegexp`,
`SpecRegexp`, `ArtifactRegexp`. -/
theorem collection_and_resource_names_disjoint (pattern : String) (m1 m2 : List String)
    (c r : Regexp) (hc : c ∈ [ApisRegexp, SpecsRegexp, ArtifactsRegexp])
    (hr : r ∈ [ApiRegexp, SpecRegexp, ArtifactRegexp])
    (h1 : FindStringSubmatch c pattern = some m1) (h2 : FindStringSubmatch r pattern = some m2) :
    False := by
  obtain ⟨s1, hs1, e1⟩ := FindStringSubmatch_length c pattern m1 h1
  obtain ⟨s2, hs2, e2⟩ := FindStringSubmatch_length r pattern m2 h2
  have odd : s1.length % 2 = 1 := by
    simp only [List.mem_cons, List.mem_singleton, List.not_mem_nil, or_false] at hc
    rcases hc with rfl | rfl | rfl
    · simp only [ApisRegexp, List.mem_singleton] at hs1; subst hs1; rfl
    · simp only [SpecsRegexp, List.mem_singleton] at hs1; subst hs1; rfl
    · simp only [ArtifactsRegexp, parentShapes, List.map_cons, List.map_nil, List.mem_cons,
        List.mem_singleton, List.not_mem_nil, or_false] at hs1
      rcases hs1 with rfl | rfl | rfl | rfl <;> rfl
  have even : s2.length % 2 = 0 := by
    simp only [List.mem_cons, List.mem_singleton, List.not_mem_nil, or_false] at hr
    rcases hr with rfl | rfl | rfl
    · simp only [ApiRegexp, List.mem_singleton] at hs2; subst hs2; rfl
    · simp only [SpecRegexp, List.mem_singleton] at hs2; subst hs2; rfl
    · simp only [ArtifactRegexp, parentShapes, List.map_cons, List.map_nil, List.mem_cons,
        List.mem_singleton, List.not_mem_nil, or_false] at hs2
      rcases hs2 with rfl | rfl | rfl | rfl <;> rfl
  omega

/-- C12: in `ListResources` the resource names are tried after the collection
names and their outcome replaces what the first half left. When `ApiRegexp`,
else `SpecRegexp`, else `ArtifactRegexp` accepts the pattern, the error of
the second half, and so of `ListResources`, is the error of that listing
alone, whatever error the collection listing had returned; when no resource
pattern accepts it, the error is the one the collection half left, which is
the error of the collection listing that matched; and a non-nil error always
comes with a nil result. -/
theorem ListResources_resource_match_overwrites {ρ : Type} (c : Lister ρ)
    (pattern filter : String) :
    (∀ (acc : List ρ × Option Error) (m : List String),
      FindStringSubmatch ApiRegexp pattern = some m →
      (listNamed c pattern filter acc).2 = (c.ListAPIs m filter).2 ∧
      (ListResources c pattern filter).2 = (c.ListAPIs m filter).2) ∧
    (∀ (acc : List ρ × Option Error) (m : List String),
      FindStringSubmatch ApiRegexp pattern = none →
      FindStringSubmatch SpecRegexp pattern = some m →
      (listNamed c pattern filter acc).2 = (c.ListSpecs m filter).2 ∧
      (ListResources c pattern filter).2 = (c.ListSpecs m filter).2) ∧
    (∀ (acc : List ρ × Option Error) (m : List String),
      FindStringSubmatch ApiRegexp pattern = none →
      FindStringSubmatch SpecRegexp pattern = none →
      FindStringSubmatch ArtifactRegexp pattern = some m →
      (listNamed c pattern filter acc).2 = (c.ListArtifacts m filter false).2 ∧
      (ListResources c pattern filter).2 = (c.ListArtifacts m filter false).2) ∧
    (FindStringSubmatch ApiRegexp pattern = none →
      FindStringSubmatch SpecRegexp pattern = none →
      FindStringSubmatch ArtifactRegexp pattern = none →
      (ListResources c pattern filter).2 = (listCollections c pattern filter).2 ∧
      (∀ m, FindStringSubmatch ApisRegexp pattern = some m →
        (ListResources c pattern filter).2 = (c.ListAPIs m filter).2) ∧
      (∀ m, FindStringSubmatch ApisRegexp pattern = none →
        FindStringSubmatch SpecsRegexp pattern = some m →
        (ListResources c pattern filter).2 = (c.ListSpecs m filter).2) ∧
      (∀ m, FindStringSubmatch ApisRegexp pattern = none →
        FindStringSubmatch SpecsRegexp pattern = none →
        FindStringSubmatch ArtifactsRegexp pattern = some m →
        (ListResources c pattern filter).2 = (c.ListArtifacts m filter false).2)) ∧
    ((ListResources c pattern filter).2 ≠ none → (ListResources c pattern filter).1 = []) := by
  have hL : ∀ r : List ρ × Option Error,
      (if r.2 ≠ none then (([] : List ρ), r.2) else (r.1, r.2)).2 = r.2 := by
    intro r; split <;> rfl
  have hLR : (ListResources c pattern filter).2
      = (listNamed c pattern filter (listCollections c pattern filter)).2 := by
    unfold ListResources; exact hL _
  refine ⟨fun acc m h1 => ?_, fun acc m h1 h2 => ?_, fun acc m h1 h2 h3 => ?_,
    fun h1 h2 h3 => ?_, fun h => ?_⟩
  · have key : ∀ acc, (listNamed c pattern filter acc).2 = (c.ListAPIs m filter).2 := by
      intro acc; simp [listNamed, h1]
    exact ⟨key acc, by rw [hLR]; exact key _⟩
  · have key : ∀ acc, (listNamed c pattern filter acc).2 = (c.ListSpecs m filter).2 := by
      intro acc; simp [listNamed, h1, h2]
    exact ⟨key acc, by rw [hLR]; exact key _⟩
  · have key : ∀ acc,
        (listNamed c pattern filter acc).2 = (c.ListArtifacts m filter false).2 := by
      intro acc; simp [listNamed, h1, h2, h3]
    exact ⟨key acc, by rw [hLR]; exact key _⟩
  · have key : (ListResources c pattern filter).2 = (listCollections c pattern filter).2 := by
      rw [hLR]; simp [listNamed, h1, h2, h3]
    refine ⟨key, fun m g1 => ?_, fun m g1 g2 => ?_, fun m g1 g2 g3 => ?_⟩
    · rw [key]; simp [listCollections, g1]
    · rw [key]; simp [listCollections, g1, g2]
    · rw [key]; simp [listCollections, g1, g2, g3]
  · unfold ListResources at h ⊢
    by_cases hn : (listNamed c pattern filter (listCollections c pattern filter)).2 = none
    · simp [hn] at h
    · simp [hn]

/-- C12 at the api name `projects/p/apis/a`, after a first half that had left
an error: the listing of the second half succeeds and the error is gone. -/
theorem ListResources_resource_match_overwrites_witness :
    (listNamed emptyLister "projects/p/apis/a" ""
        (["projects/p/apis/x"], some ⟨Code.Unavailable, "collection listing failed"⟩)).2
      = (emptyLister.ListAPIs ["projects/p/apis/a", "p", "a"] "").2 ∧
    (ListResources emptyLister "projects/p/apis/a" "").2
      = (emptyLister.ListAPIs ["projects/p/apis/a", "p", "a"] "").2 :=
  (ListResources_resource_match_overwrites emptyLister "projects/p/apis/a" "").1
    (["projects/p/apis/x"], some ⟨Code.Unavailable, "collection listing failed"⟩)
    ["projects/p/apis/a", "p", "a"] (by decide)

/-! ## Regular expressions: the matcher accepts the language -/

theorem Re.nullable_iff (r : Re) : r.nullable = true ↔ r.lang [] := by
  induction r with
  | empty => simp [Re.nullable, Re.lang]
  | eps => simp [Re.nullable, Re.lang]
  | set p => simp [Re.nullable, Re.lang]
  | cat a b iha ihb =>
    simp only [Re.nullable, Re.lang, Bool.and_eq_true, iha, ihb]
    constructor
    · rintro ⟨ha, hb⟩
      exact ⟨[], [], rfl, ha, hb⟩
    · rintro ⟨x, y, hxy, ha, hb⟩
      have hx : x = [] := (List.append_eq_nil.1 hxy.symm).1
      have hy : y = [] := (List.append_eq_nil.1 hxy.symm).2
      subst hx; subst hy
      exact ⟨ha, hb⟩
  | alt a b iha ihb => simp [Re.nullable, Re.lang, iha, ihb]
  | star a _ =>
    simp only [Re.nullable, Re.lang, true_iff]
    exact ⟨[], rfl, by simp⟩

theorem Re.star_lang_cons (a : Re) (c : Char) (s : List Char) :
    (Re.star a).lang (c :: s) ↔
      ∃ x y, s = x ++ y ∧ a.lang (c :: x) ∧ (Re.star a).lang y := by
  constructor
  · rintro ⟨L, hL, hall⟩
    induction L with
    | nil => simp at hL
    | cons h t ih =>
      cases h with
      | nil =>
        exact ih (by simpa using hL) (fun x hx => hall x (List.mem_cons_of_mem _ hx))
      | cons c1 x =>
        simp only [List.flatten_cons, List.cons_append, List.cons.injEq] at hL
        obtain ⟨rfl, rfl⟩ := hL
        exact ⟨x, t.flatten, rfl, hall _ (List.mem_cons_self _ _), t, rfl,
          fun y hy => hall y (List.mem_cons_of_mem _ hy)⟩
  · rintro ⟨x, y, rfl, hx, L, rfl, hall⟩
    refine ⟨(c :: x) :: L, by simp, ?_⟩
    intro z hz
    rcases List.mem_cons.1 hz with rfl | hz
    · exact hx
    · exact hall z hz

theorem Re.deriv_iff (r : Re) (c : Char) (s : List Char) :
    (r.deriv c).lang s ↔ r.lang (c :: s) := by
  induction r generalizing s with
  | empty => simp [Re.deriv, Re.lang]
  | eps => simp [Re.deriv, Re.lang]
  | set p =>
    by_cases hp : p c = true
    · simp only [Re.deriv, hp, if_true, Re.lang]
      constructor
      · rintro rfl
        exact ⟨c, rfl, hp⟩
      · rintro ⟨c1, h, _⟩
        simp only [List.cons.injEq] at h
        exact h.2
    · simp only [Re.deriv, hp, Re.lang, false_iff]
      rintro ⟨c1, h, h1⟩
      simp only [List.cons.injEq] at h
      rw [← h.1] at h1
      exact hp h1
  | cat a b iha ihb =>
    have split : (Re.cat a b).lang (c :: s) ↔
        (a.lang [] ∧ b.lang (c :: s)) ∨ ∃ x y, s = x ++ y ∧ a.lang (c :: x) ∧ b.lang y := by
      constructor
      · rintro ⟨x, y, hxy, hx, hy⟩
        cases x with
        | nil =>
          simp only [List.nil_append] at hxy
          subst hxy
          exact Or.inl ⟨hx, hy⟩
        | cons c1 x1 =>
          simp only [List.cons_append, List.cons.injEq] at hxy
          obtain ⟨rfl, rfl⟩ := hxy
          exact Or.inr ⟨x1, y, rfl, hx, hy⟩
      · rintro (⟨ha, hb⟩ | ⟨x, y, rfl, hx, hy⟩)
        · exact ⟨[], c :: s, rfl, ha, hb⟩
        · exact ⟨c :: x, y, rfl, hx, hy⟩
    rw [split]
    by_cases hn : a.nullable = true
    · simp only [Re.deriv, hn, if_true, Re.lang, iha, ihb]
      have hn1 : a.lang [] := (Re.nullable_iff a).1 hn
      constructor
      · rintro (h | h)
        · exact Or.inr h
        · exact Or.inl ⟨hn1, h⟩
      · rintro (⟨_, h⟩ | h)
        · exact Or.inr h
        · exact Or.inl h
    · simp only [Re.deriv, hn, Re.lang, iha]
      have hn1 : ¬ a.lang [] := fun h => hn ((Re.nullable_iff a).2 h)
      constructor
      · intro h
        exact Or.inr h
      · rintro (⟨h, _⟩ | h)
        · exact absurd h hn1
        · exact h
  | alt a b iha ihb => simp [Re.deriv, Re.lang, iha, ihb]
  | star a iha =>
    rw [Re.star_lang_cons]
    simp only [Re.deriv]
    constructor
    · rintro ⟨x, y, rfl, hx, hy⟩
      exact ⟨x, y, rfl, (iha x).1 hx, hy⟩
    · rintro ⟨x, y, rfl, hx, hy⟩
      exact ⟨x, y, rfl, (iha x).2 hx, hy⟩

theorem Re.accepts_iff (r : Re) (s : List Char) : r.accepts s = true ↔ r.lang s := by
  induction s generalizing r with
  | nil => simpa [Re.accepts] using Re.nullable_iff r
  | cons c cs ih => simpa [Re.accepts, ih] using Re.deriv_iff r c cs

theorem Re.star_set_lang (p : Char → Bool) (s : List Char) :
    (Re.star (Re.set p)).lang s ↔ ∀ c ∈ s, p c = true := by
  constructor
  · rintro ⟨L, rfl, hall⟩ c hc
    obtain ⟨x, hx, hcx⟩ := List.mem_flatten.1 hc
    obtain ⟨c1, rfl, h1⟩ := hall x hx
    simp only [List.mem_singleton] at hcx
    rw [hcx]
    exact h1
  · intro h
    refine ⟨s.map fun c => [c], ?_, ?_⟩
    · clear h
      induction s with
      | nil => rfl
      | cons c cs ih => simpa using ih
    · intro x hx
      obtain ⟨c, hc, rfl⟩ := List.mem_map.1 hx
      exact ⟨c, rfl, h c hc⟩

theorem Re.search_lang (r : Re) (s : List Char) :
    (Re.cat (Re.star Re.anyChar) (Re.cat r (Re.star Re.anyChar))).lang s ↔
      ∃ x body z, s = x ++ (body ++ z) ∧ r.lang body := by
  have hany : ∀ t : List Char, (Re.star Re.anyChar).lang t := fun t =>
    (Re.star_set_lang _ t).2 (fun _ _ => rfl)
  constructor
  · rintro ⟨x, y, rfl, _, body, z, rfl, hb, _⟩
    exact ⟨x, body, z, rfl, hb⟩
  · rintro ⟨x, body, z, rfl, hb⟩
    exact ⟨x, body ++ z, rfl, hany x, body, z, rfl, hb, hany z⟩

theorem versionPattern_lang (body : List Char) :
    versionPattern.lang body ↔
      ∃ y d ds z, body = 'v' :: (y ++ (d :: ds ++ z)) ∧ '\n' ∉ y ∧
        ('1'.toNat ≤ d.toNat ∧ d.toNat ≤ '9'.toNat) ∧
        (∀ c ∈ ds, '1'.toNat ≤ c.toNat ∧ c.toNat ≤ '9'.toNat) ∧ '\n' ∉ z := by
  have hdot : ∀ t : List Char, (Re.star Re.dot).lang t ↔ '\n' ∉ t := by
    intro t
    rw [Re.dot, Re.star_set_lang]
    constructor
    · intro h hm
      have := h _ hm
      simp at this
    · intro h c hc
      have : c ≠ '\n' := fun e => h (e ▸ hc)
      simpa using this
  have hdig : ∀ t : List Char, (Re.star Re.digit19).lang t ↔
      ∀ c ∈ t, '1'.toNat ≤ c.toNat ∧ c.toNat ≤ '9'.toNat := by
    intro t
    rw [Re.digit19, Re.star_set_lang]
    simp
  constructor
  · rintro ⟨v, r1, rfl, ⟨c0, rfl, hv⟩, y, r2, rfl, hy, dd, z, rfl,
      ⟨d1, ds, rfl, ⟨d, rfl, hd⟩, hds⟩, hz⟩
    have hc0 : c0 = 'v' := by simpa using hv
    subst hc0
    refine ⟨y, d, ds, z, by simp, (hdot y).1 hy, by simpa using hd, (hdig ds).1 hds,
      (hdot z).1 hz⟩
  · rintro ⟨y, d, ds, z, rfl, hy, hd, hds, hz⟩
    refine ⟨['v'], y ++ (d :: ds ++ z), rfl, ⟨'v', rfl, by simp⟩, y, d :: ds ++ z, rfl,
      (hdot y).2 hy, d :: ds, z, rfl, ⟨[d], ds, rfl, ⟨d, rfl, by simpa using hd⟩,
        (hdig ds).2 hds⟩, (hdot z).2 hz⟩

/-- The pattern `v.*[1-9]+.*`, searched for anywhere in a name, is found
exactly in the names that contain a `v` followed, later on the same line, by
a digit from 1 to 9. -/
theorem versionPattern_MatchString_iff (b : String) :
    versionPattern.MatchString b = true ↔ hasVersionShape b.data := by
  unfold Re.MatchString hasVersionShape
  rw [Re.accepts_iff, Re.search_lang]
  constructor
  · rintro ⟨x, body, z, hb, hl⟩
    obtain ⟨y, d, ds, z1, rfl, hy, hd, _, _⟩ := (versionPattern_lang body).1 hl
    exact ⟨x, y, d, ds ++ z1 ++ z, by rw [hb]; simp, hy, hd.1, hd.2⟩
  · rintro ⟨x, y, d, z, hb, hy, hd1, hd2⟩
    refine ⟨x, 'v' :: (y ++ [d]), z, by rw [hb]; simp, ?_⟩
    exact (versionPattern_lang _).2 ⟨y, d, [], [], by simp, hy, ⟨hd1, hd2⟩, by simp, by simp⟩

/-! ## Scanning a directory: the verified properties -/

theorem walkFold_scanWalkFn (projectID directory : String) (es : List WalkEntry)
    (queue : List uploadProtoTask) :
    (walkFold (scanWalkFn projectID directory) queue es).1 =
      queue ++
        (((es.takeWhile fun e => e.err.isNone).filter fun e =>
            e.isDir && versionPattern.MatchString (Base e.path)).map fun e =>
          newUploadTask projectID e.path directory) := by
  induction es generalizing queue with
  | nil => simp [walkFold]
  | cons e es ih =>
    cases herr : e.err with
    | some err => simp [walkFold, scanWalkFn, herr]
    | none =>
      by_cases hd : e.isDir = true
      · by_cases hm : versionPattern.MatchString (Base e.path) = true
        · simp [walkFold, scanWalkFn, herr, hd, hm, ih, List.takeWhile, List.filter]
        · simp [walkFold, scanWalkFn, herr, hd, hm, ih, List.takeWhile, List.filter]
      · simp [walkFold, scanWalkFn, herr, hd, ih, List.takeWhile, List.filter]

/-- C14: `scanDirectoryForProtos` sends one task per discovered version
directory. The tasks sent to the queue are, in walk order, one task for each
directory the walk visits (each entry handed over without an error, up to
the first error, which ends the walk) whose base name is matched by the
unanchored pattern `v.*[1-9]+.*`, with `path` the directory and `directory`
the walk root; a base name is matched exactly when it contains a `v`
followed, later on the same line, by a digit from 1 to 9; so no task is sent
for a file or for a directory such as `v0` or `apis`. -/
theorem scanDirectoryForProtos_tasks :
    (∀ (fs : ProtoFiles) (projectID directory : String),
      scanDirectoryForProtos fs projectID directory =
        ((((fs.Walk directory).takeWhile fun e => e.err.isNone).filter fun e =>
            e.isDir && versionPattern.MatchString (Base e.path)).map fun e =>
          newUploadTask projectID e.path directory)) ∧
    (∀ (fs : ProtoFiles) (projectID directory : String),
      (∀ e ∈ fs.Walk directory, e.err = none) →
      scanDirectoryForProtos fs projectID directory =
        (((fs.Walk directory).filter fun e =>
            e.isDir && versionPattern.MatchString (Base e.path)).map fun e =>
          newUploadTask projectID e.path directory)) ∧
    (∀ b : String, versionPattern.MatchString b = true ↔ hasVersionShape b.data) ∧
    versionPattern.MatchString (Base "googleapis/google/example/v1") = true ∧
    versionPattern.MatchString (Base "googleapis/google/example/v0") = false ∧
    versionPattern.MatchString (Base "googleapis/apis") = false := by
  refine ⟨fun fs projectID directory => ?_, fun fs projectID directory hok => ?_,
    versionPattern_MatchString_iff, by decide, by decide, by decide⟩
  · simpa [scanDirectoryForProtos] using
      walkFold_scanWalkFn projectID directory (fs.Walk directory) []
  · have htw : ((fs.Walk directory).takeWhile fun e => e.err.isNone) = fs.Walk directory := by
      rw [List.takeWhile_eq_self_iff]
      intro e he
      simp [hok e he]
    have := walkFold_scanWalkFn projectID directory (fs.Walk directory) []
    rw [htw] at this
    simpa [scanDirectoryForProtos] using this

/-- C14 on the tree `demoTree`: no entry of the walk carries an error, and the
tasks sent are those for `google/example/v1` and `v2`. -/
theorem scanDirectoryForProtos_tasks_witness :
    scanDirectoryForProtos demoTree "demo" "googleapis" =
      (((demoTree.Walk "googleapis").filter fun e =>
          e.isDir && versionPattern.MatchString (Base e.path)).map fun e =>
        newUploadTask "demo" e.path "googleapis") :=
  scanDirectoryForProtos_tasks.2.1 demoTree "demo" "googleapis" (by decide)

/-! ## The IDs of an upload task -/

theorem TrimPrefix_append (pre rest : String) : TrimPrefix (pre ++ rest) pre = rest := by
  unfold TrimPrefix
  have h : pre.data.isPrefixOf (pre ++ rest).data = true := by
    simp [String.data_append]
  rw [if_pos h]
  apply String.ext
  simp [String.data_append]

theorem Split_Join (L : List String) (hne : L ≠ []) (h : ∀ x ∈ L, '/' ∉ x.data) :
    Split (Join L "/") = L := by
  cases L with
  | nil => exact absurd rfl hne
  | cons x r =>
    have hs : ∀ s ∈ x.data :: r.map String.data, '/' ∉ s := by
      intro s hs
      rcases List.mem_cons.1 hs with rfl | hs
      · exact h x (List.mem_cons_self _ _)
      · obtain ⟨y, hy, rfl⟩ := List.mem_map.1 hs
        exact h y (List.mem_cons_of_mem _ hy)
    have := splitSlash_joinSep x.data (r.map String.data) hs
    simp only [Split, Join, List.map_cons]
    rw [this]
    simp [List.map_map, Function.comp_def]

theorem joinSep_not_mem (a : Char) (sep : List Char) (L : List (List Char))
    (hsep : a ∉ sep) (h : ∀ x ∈ L, a ∉ x) : a ∉ joinSep sep L := by
  induction L with
  | nil => simp [joinSep]
  | cons x r ih =>
    cases r with
    | nil => simpa [joinSep] using h x (List.mem_cons_self _ _)
    | cons y t =>
      have hx : a ∉ x := h x (List.mem_cons_self _ _)
      have hr : a ∉ joinSep sep (y :: t) := ih (fun z hz => h z (List.mem_cons_of_mem _ hz))
      simp [joinSep, hx, hsep, hr]

theorem joinSep_eq_nil (sep : List Char) (L : List (List Char)) (h : ∀ x ∈ L, x ≠ [])
    (he : joinSep sep L = []) : L = [] := by
  cases L with
  | nil => rfl
  | cons x r =>
    have hx : x ≠ [] := h x (List.mem_cons_self _ _)
    cases r with
    | nil => exact absurd (by simpa [joinSep] using he) hx
    | cons y t =>
      simp only [joinSep, List.append_assoc, List.append_eq_nil] at he
      exact absurd he.1 hx

theorem Replace_of_not_mem (s : String) (old new : Char) (h : old ∉ s.data) :
    Replace s old new = s := by
  unfold Replace
  apply String.ext
  show s.data.map (fun c => if c = old then new else c) = s.data
  have : ∀ l : List Char, old ∉ l → l.map (fun c => if c = old then new else c) = l := by
    intro l hl
    induction l with
    | nil => rfl
    | cons c cs ih =>
      have hc : c ≠ old := fun e => hl (by simp [e])
      have hcs : old ∉ cs := fun e => hl (by simp [e])
      simp [hc, ih hcs]
  exact this _ h

/-- C13 is not met by the code. The walk of `demoTree` selects the directory
`googleapis/v2`, one level below the root `googleapis`; for that task the
computed API ID is the empty string, so `createAPI` asks for the API named
`projects/demo/apis/`, a name with an empty ID that `ApiRegexp` rejects (as
the table of `TestResourceNames` requires). The same happens when the root
itself is selected (`v1` walked as root), and for a root written with a
trailing slash nothing is trimmed, so the root becomes part of the API ID. -/
theorem computeIDs_empty_apiID :
    newUploadTask "demo" "googleapis/v2" "googleapis"
      ∈ scanDirectoryForProtos demoTree "demo" "googleapis" ∧
    versionPattern.MatchString (Base "googleapis/v2") = true ∧
    (computeIDs (newUploadTask "demo" "googleapis/v2" "googleapis")).apiID = "" ∧
    (computeIDs (newUploadTask "demo" "googleapis/v2" "googleapis")).versionID = "v2" ∧
    getApiCall (computeIDs (newUploadTask "demo" "googleapis/v2" "googleapis"))
      = Call.GetApi "projects/demo/apis/" ∧
    MatchString ApiRegexp "projects/demo/apis/" = false ∧
    validId (computeIDs (newUploadTask "demo" "googleapis/v2" "googleapis")).apiID.data
      = false ∧
    (computeIDs (newUploadTask "demo" "v1" "v1")).apiID = "" ∧
    (computeIDs (newUploadTask "demo" "googleapis/google/example/v1" "googleapis/")).apiID
      = "googleapis-google-example" := by
  refine ⟨by decide, by decide, by decide, by decide, by decide, by decide, by decide,
    by decide, by decide⟩

/-- Where the IDs are as C13 says: for a directory below a root `d` that the
walk reports as `d/c1/.../cn/c`, with components that are non-empty and free
of `/`, the version ID computed is the last component `c` and the API ID is
the preceding components joined with `-`; the version ID is non-empty,
neither ID contains `/`, and the API ID is non-empty exactly when a component
precedes the last one. -/
theorem computeIDs_of_descendant (projectID d c : String) (comps : List String)
    (t : uploadProtoTask)
    (h : ∀ x ∈ comps ++ [c], x ≠ "" ∧ '/' ∉ x.data)
    (ht : t = computeIDs (newUploadTask projectID (d ++ "/" ++ Join (comps ++ [c]) "/") d)) :
    t.versionID = c ∧ t.apiID = Join comps "-" ∧
    t.versionID ≠ "" ∧ '/' ∉ t.versionID.data ∧ '/' ∉ t.apiID.data ∧
    (t.apiID ≠ "" ↔ comps ≠ []) := by
  have hparts : Split (TrimPrefix (d ++ "/" ++ Join (comps ++ [c]) "/") (d ++ "/"))
      = comps ++ [c] := by
    rw [TrimPrefix_append, Split_Join _ (by simp) (fun x hx => (h x hx).2)]
  have hcs : ∀ x ∈ comps.map String.data, '/' ∉ x := by
    intro x hx
    obtain ⟨y, hy, rfl⟩ := List.mem_map.1 hx
    exact (h y (List.mem_append_left _ hy)).2
  have hjoin : '/' ∉ (Join comps "-").data :=
    joinSep_not_mem '/' "-".data _ (by decide) hcs
  have hv : t.versionID = c := by
    rw [ht]
    simp only [computeIDs, newUploadTask, hparts, List.getLastD_concat]
  have ha : t.apiID = Join comps "-" := by
    rw [ht]
    simp only [computeIDs, newUploadTask, hparts, List.dropLast_concat]
    exact Replace_of_not_mem _ _ _ hjoin
  have hc := h c (by simp)
  refine ⟨hv, ha, by rw [hv]; exact hc.1, by rw [hv]; exact hc.2, by rw [ha]; exact hjoin, ?_⟩
  rw [ha]
  constructor
  · intro hne hnil
    apply hne
    rw [hnil]
    rfl
  · intro hne hempty
    apply hne
    have hd : joinSep "-".data (comps.map String.data) = [] := by
      have := congrArg String.data hempty
      simpa [Join] using this
    have hnn : ∀ x ∈ comps.map String.data, x ≠ [] := by
      intro x hx
      obtain ⟨y, hy, rfl⟩ := List.mem_map.1 hx
      intro hy0
      exact (h y (List.mem_append_left _ hy)).1 (String.ext hy0)
    simpa using joinSep_eq_nil _ _ hnn hd

/-- The IDs of the directory `googleapis/google/example/v1` under the root
`googleapis`. -/
theorem computeIDs_of_descendant_witness :
    (computeIDs (newUploadTask "demo"
        ("googleapis" ++ "/" ++ Join (["google", "example"] ++ ["v1"]) "/")
        "googleapis")).versionID = "v1" ∧
    (computeIDs (newUploadTask "demo"
        ("googleapis" ++ "/" ++ Join (["google", "example"] ++ ["v1"]) "/")
        "googleapis")).apiID = Join ["google", "example"] "-" :=
  ⟨(computeIDs_of_descendant "demo" "googleapis" "v1" ["google", "example"] _ (by decide)
      rfl).1,
   (computeIDs_of_descendant "demo" "googleapis" "v1" ["google", "example"] _ (by decide)
      rfl).2.1⟩

/-! ## The archive of an upload task -/

theorem walkFold_zipWalkFn (fs : ProtoFiles) (pre : String) (es : List WalkEntry)
    (zipWriter : List ZipEntry)
    (herr : ∀ e ∈ es, e.err = none)
    (hread : ∀ e ∈ es, e.isDir = false → HasSuffix e.path ".proto" = true →
      ∃ data, fs.Open e.path = FileRead.whole data) :
    walkFold (zipWalkFn fs pre) zipWriter es =
      (zipWriter ++
        ((es.filter fun e => !e.isDir && HasSuffix e.path ".proto").map (zipEntryOf fs pre)),
       none) := by
  induction es generalizing zipWriter with
  | nil => simp [walkFold]
  | cons e es ih =>
    have he : e.err = none := herr e (List.mem_cons_self _ _)
    have ih1 := fun zw => ih zw (fun x hx => herr x (List.mem_cons_of_mem _ hx))
      (fun x hx => hread x (List.mem_cons_of_mem _ hx))
    by_cases hd : e.isDir = true
    · simp [walkFold, zipWalkFn, he, hd, ih1, List.filter]
    · by_cases hsuf : HasSuffix e.path ".proto" = true
      · obtain ⟨data, hdata⟩ := hread e (List.mem_cons_self _ _) (by simpa using hd) hsuf
        simp [walkFold, zipWalkFn, addFileToZip, he, hd, hsuf, hdata, ih1, List.filter,
          zipEntryOf, FileRead.bytes]
      · simp [walkFold, zipWalkFn, he, hd, hsuf, ih1, List.filter]

/-- C18: `zipArchiveOfPath` returns a nil error on every input, also when the
walk or `addFileToZip` fails part-way; so in the `NotFound` branch of
`createSpec` the archive step returns no error, the `CreateSpec` call is
issued, with the bytes archived so far as contents, and `createSpec` returns
nil. When nothing fails, the archive holds exactly the files (entries that
are not directories) of the walk whose path ends in `.proto`, in walk order,
each named by its path with the prefix removed. -/
theorem zipArchiveOfPath_never_fails :
    (∀ (fs : ProtoFiles) (path pre : String), (zipArchiveOfPath fs path pre).2 = none) ∧
    ((zipArchiveOfPath brokenTree "protos/v1" "protos/").2 = none ∧
      (walkFold (zipWalkFn brokenTree "protos/") [] (brokenTree.Walk "protos/v1")) =
        ([{ Name := "v1/a.proto", Contents := [1, 2, 3] }],
          some ⟨Code.Unknown, "permission denied"⟩)) ∧
    (∀ (σ : Type) (c : Client σ) (fs : ProtoFiles) (task : uploadProtoTask) (w : World σ),
      NotFound (c.call w.registry (getSpecCall task)).1 = true →
      (createSpec c fs task w).1 = none ∧
      (createSpec c fs task w).2.trace =
        w.trace ++ [getSpecCall task,
          Call.CreateSpec
            ("projects/" ++ task.projectID ++ "/apis/" ++ task.apiID ++ "/versions/"
              ++ task.versionID)
            "protos.zip"
            { Style := "proto+zip", Filename := "protos.zip",
              Contents := fs.zipBytes
                (walkFold (zipWalkFn fs (task.directory ++ "/")) []
                  (fs.Walk task.path)).1 }]) ∧
    (∀ (fs : ProtoFiles) (path pre : String),
      (∀ e ∈ fs.Walk path, e.err = none) →
      (∀ e ∈ fs.Walk path, e.isDir = false → HasSuffix e.path ".proto" = true →
        ∃ data, fs.Open e.path = FileRead.whole data) →
      (zipArchiveOfPath fs path pre).1 =
        fs.zipBytes
          (((fs.Walk path).filter fun e => !e.isDir && HasSuffix e.path ".proto").map
            (zipEntryOf fs pre))) := by
  refine ⟨fun _ _ _ => rfl, ⟨rfl, by decide⟩, ?_, ?_⟩
  · intro σ c fs task w hg
    refine ⟨by simp [createSpec_fst, hg], ?_⟩
    rw [createSpec_trace]
    simp [hg, createSpecCall, zipArchiveOfPath]
  · intro fs path pre herr hread
    simp [zipArchiveOfPath, walkFold_zipWalkFn fs pre (fs.Walk path) [] herr hread]

/-- C18 on `demoTree`: the archive of `googleapis/google/example/v1` holds the
one proto file of the directory, named `google/example/v1/a.proto`. -/
theorem zipArchiveOfPath_never_fails_witness :
    (zipArchiveOfPath demoTree "googleapis/google/example/v1" "googleapis/").1 =
      demoTree.zipBytes
        (((demoTree.Walk "googleapis/google/example/v1").filter fun e =>
            !e.isDir && HasSuffix e.path ".proto").map
          (zipEntryOf demoTree "googleapis/")) :=
  zipArchiveOfPath_never_fails.2.2.2 demoTree "googleapis/google/example/v1" "googleapis/"
    (by decide) (fun _ _ _ _ => ⟨[1, 2, 3], rfl⟩)

/-! ## Exporting complexity to a sheet: the verified properties -/

/-- C15 is not met by the code. An artifact directly under a project,
`projects/demo/artifacts/complexity`, is a valid artifact name with four
components: `parts[5]` is out of range and the export panics. An artifact
under an api has six components and `parts[5]` is the artifact ID, which is
put in the version column. -/
theorem complexityRows_project_artifact_panics :
    MatchString ArtifactRegexp "projects/demo/artifacts/complexity" = true ∧
    (Split "projects/demo/artifacts/complexity").length = 4 ∧
    complexityRows demoComplexityEnv
        [{ Name := "projects/demo/artifacts/complexity", MimeType := "", Contents := [] }]
      = Built.panic "index out of range [5]" ∧
    MatchString ArtifactRegexp "projects/demo/apis/a/artifacts/complexity" = true ∧
    complexityRows demoComplexityEnv
        [{ Name := "projects/demo/apis/a/artifacts/complexity", MimeType := "",
           Contents := [] }]
      = Built.ok [rowForLabeledComplexity "" "" none,
          rowForLabeledComplexity "a" "complexity" (some ⟨1, 2, 3, 4, 5, 6, 7⟩)] := by
  refine ⟨by decide, by decide, by decide, by decide, by decide⟩

theorem complexityLoop_ok (env : ComplexityEnv) (f : Artifact → List Cell)
    (inputs : List Artifact) (rows : List (List Cell))
    (h : ∀ input ∈ inputs, complexityRow env input = Built.ok (f input)) :
    complexityLoop env rows inputs = Built.ok (rows ++ inputs.map f) := by
  induction inputs generalizing rows with
  | nil => simp [complexityLoop]
  | cons input rest ih =>
    have h1 := h input (List.mem_cons_self _ _)
    have h2 := ih (rows ++ [f input]) (fun x hx => h x (List.mem_cons_of_mem _ hx))
    simp [complexityLoop, h1, h2]

theorem split_version_name (p a v rest : String) (hp : '/' ∉ p.data) (ha : '/' ∉ a.data)
    (hv : '/' ∉ v.data) :
    Split ("projects/" ++ p ++ "/apis/" ++ a ++ "/versions/" ++ v ++ "/" ++ rest)
      = "projects" :: p :: "apis" :: a :: "versions" :: v :: Split rest := by
  have hd : ("projects/" ++ p ++ "/apis/" ++ a ++ "/versions/" ++ v ++ "/" ++ rest).data
      = "projects".data ++ '/' :: (p.data ++ '/' :: ("apis".data ++ '/' :: (a.data ++ '/' ::
          ("versions".data ++ '/' :: (v.data ++ '/' :: rest.data))))) := by
    simp [String.data_append]
  unfold Split
  rw [hd, splitSlash_append _ _ (by decide), splitSlash_append _ _ hp,
    splitSlash_append _ _ (by decide), splitSlash_append _ _ ha,
    splitSlash_append _ _ (by decide), splitSlash_append _ _ hv]
  rfl

/-- Where the export does what C15 says: for complexity artifacts whose names
lie under a version (artifacts of a version or of a spec), the rows are the
header followed by one row per input, in order, labelled with the api ID and
the version ID of the name. -/
theorem complexityRows_under_version (env : ComplexityEnv) (inputs : List Artifact)
    (ids : Artifact → String × String)
    (h : ∀ input ∈ inputs, ∃ p rest c, '/' ∉ p.data ∧ '/' ∉ (ids input).1.data ∧
      '/' ∉ (ids input).2.data ∧
      input.Name = "projects/" ++ p ++ "/apis/" ++ (ids input).1 ++ "/versions/"
        ++ (ids input).2 ++ "/" ++ rest ∧
      getComplexity env input = .ok c) :
    ∃ rows : List (List Cell),
      complexityRows env inputs = Built.ok (rowForLabeledComplexity "" "" none :: rows) ∧
      rows.length = inputs.length ∧
      (∀ row ∈ rowForLabeledComplexity "" "" none :: rows, row.length = 9) ∧
      rows.map (fun row => row.take 2)
        = inputs.map fun input => [Cell.str (ids input).1, Cell.str (ids input).2] := by
  have key : ∀ input ∈ inputs, ∃ c, complexityRow env input
      = Built.ok (rowForLabeledComplexity (ids input).1 (ids input).2 (some c)) := by
    intro input hin
    obtain ⟨p, rest, c, hp, ha, hv, hname, hc⟩ := h input hin
    refine ⟨c, ?_⟩
    simp [complexityRow, hc, hname, split_version_name p _ _ rest hp ha hv]
  classical
  let f : Artifact → List Cell := fun input =>
    if hin : input ∈ inputs then
      rowForLabeledComplexity (ids input).1 (ids input).2 (some (Classical.choose (key input hin)))
    else []
  have hf : ∀ input ∈ inputs, complexityRow env input = Built.ok (f input) := by
    intro input hin
    simp only [f, hin, dif_pos]
    exact Classical.choose_spec (key input hin)
  refine ⟨inputs.map f, ?_, by simp, ?_, ?_⟩
  · simpa [complexityRows] using complexityLoop_ok env f inputs _ hf
  · intro row hrow
    rcases List.mem_cons.1 hrow with rfl | hrow
    · rfl
    · obtain ⟨input, hin, rfl⟩ := List.mem_map.1 hrow
      simp only [f, hin, dif_pos]
      rfl
  · rw [List.map_map]
    apply List.map_congr_left
    intro input hin
    simp only [Function.comp, f, hin, dif_pos]
    rfl

/-- The export at an artifact of a spec and an artifact of a version. -/
theorem complexityRows_under_version_witness :
    ∃ rows : List (List Cell),
      complexityRows demoComplexityEnv
          [{ Name := "projects/" ++ "p" ++ "/apis/" ++ "a" ++ "/versions/" ++ "v" ++ "/"
               ++ "specs/s/artifacts/complexity", MimeType := "", Contents := [] }]
        = Built.ok (rowForLabeledComplexity "" "" none :: rows) ∧
      rows.length = 1 ∧
      (∀ row ∈ rowForLabeledComplexity "" "" none :: rows, row.length = 9) ∧
      rows.map (fun row => row.take 2) = [[Cell.str "a", Cell.str "v"]] :=
  complexityRows_under_version demoComplexityEnv
    [{ Name := "projects/" ++ "p" ++ "/apis/" ++ "a" ++ "/versions/" ++ "v" ++ "/"
         ++ "specs/s/artifacts/complexity", MimeType := "", Contents := [] }]
    (fun _ => ("a", "v"))
    (fun input hin => by
      simp only [List.mem_singleton] at hin
      subst hin
      exact ⟨"p", "specs/s/artifacts/complexity", ⟨1, 2, 3, 4, 5, 6, 7⟩,
        by decide, by decide, by decide, by decide, rfl⟩)

/-! ## Labels over GraphQL: one label -/

/-- C19 is not met by the code. When `GetLabel` fails and returns no label
(here: `NotFound` for the id `missing`), `resolveLabel` hands the nil label to
`representationForLabel`, which reads `label.Name`: the resolver panics and
the error never reaches the caller. The first part of the claim holds: with a
client, an `id` that is absent or not a string gives `missing id field`. -/
theorem resolveLabel_panics_when_GetLabel_fails :
    (pagedService demoPages).GetLabel 0 "missing"
      = ((none, some ⟨Code.NotFound, "label not found"⟩), 0) ∧
    resolveLabel none (pagedService demoPages) 0 { after := none, first := none, id := "missing" }
      = Built.panic "invalid memory address or nil pointer dereference" ∧
    resolveLabel none (pagedService demoPages) 0 { after := none, first := none, id := none }
      = Built.ok (none, some ⟨Code.Unknown, "missing id field"⟩) ∧
    resolveLabel none (pagedService demoPages) 0 { after := none, first := none, id := "env" }
      = Built.ok (some ⟨"env", 10, 20⟩, none) := by
  refine ⟨by decide, by decide, by decide, by decide⟩

/-- Whatever the service: a `GetLabel` call that returns no label makes
`resolveLabel` panic, and a label representation is returned only for a
label that was returned. -/
theorem resolveLabel_cases {σ : Type} (srv : LabelService σ) (st : σ) (args : ResolveArgs) :
    (args.id = none →
      resolveLabel none srv st args = Built.ok (none, some ⟨Code.Unknown, "missing id field"⟩)) ∧
    (∀ name, args.id = some name → (srv.GetLabel st name).1.1 = none →
      resolveLabel none srv st args
        = Built.panic "invalid memory address or nil pointer dereference") ∧
    (∀ name label, args.id = some name → (srv.GetLabel st name).1.1 = some label →
      resolveLabel none srv st args
        = Built.ok (some (labelRep label), (srv.GetLabel st name).1.2)) := by
  refine ⟨fun h => ?_, fun name h hl => ?_, fun name label h hl => ?_⟩
  · simp [resolveLabel, h]
  · simp [resolveLabel, h, hl, representationForLabel]
  · simp [resolveLabel, h, hl, representationForLabel]

/-! ## Exporting specs to CSV: the verified properties -/

theorem matchSegs_captures (sh : List Seg) (l : List (List Char)) (m : List String)
    (h : matchSegs sh l = some m) :
    m.length = (sh.filter fun s => decide (s = Seg.id) || decide (s = Seg.idRev)).length := by
  induction sh generalizing l m with
  | nil =>
    cases l with
    | nil => simp [matchSegs] at h; subst h; rfl
    | cons x xs => simp [matchSegs] at h
  | cons sg ps ih =>
    cases l with
    | nil => cases sg <;> simp [matchSegs] at h
    | cons x xs =>
      cases sg with
      | lit s =>
        by_cases hx : x = s.data
        · simp only [matchSegs, hx, if_true] at h
          simpa [List.filter] using ih xs m h
        · simp [matchSegs, hx] at h
      | id =>
        by_cases hx : validId x = true
        · simp only [matchSegs, hx, if_true, Option.map_eq_some'] at h
          obtain ⟨m0, hm, rfl⟩ := h
          simpa [List.filter] using ih xs m0 hm
        · simp [matchSegs, hx] at h
      | idRev =>
        cases hs : specId x with
        | none => simp [matchSegs, hs] at h
        | some i =>
          simp only [matchSegs, hs, Option.map_eq_some'] at h
          obtain ⟨m0, hm, rfl⟩ := h
          simpa [List.filter] using ih xs m0 hm

theorem SpecRegexp_submatch (name : String) (m : List String)
    (h : FindStringSubmatch SpecRegexp name = some m) :
    ∃ p a v s, m = [name, p, a, v, s] := by
  simp only [FindStringSubmatch, SpecRegexp, List.findSome?_cons, List.findSome?_nil,
    Option.map_eq_some'] at h
  obtain ⟨m0, hm, rfl⟩ := h
  have hsh : matchSegs specShape (splitSlash name.data) = some m0 := by
    cases hh : matchSegs specShape (splitSlash name.data) with
    | none => simp [hh] at hm
    | some m1 => simp [hh] at hm; rw [hm]
  have hlen : m0.length = 4 := by
    rw [matchSegs_captures _ _ _ hsh]
    rfl
  match m0, hlen with
  | [p, a, v, s], _ => exact ⟨p, a, v, s, rfl⟩

theorem specRowOf_eq_none_iff (name : String) :
    specRowOf name = none ↔ MatchString SpecRegexp name = false := by
  unfold specRowOf MatchString
  cases h : FindStringSubmatch SpecRegexp name with
  | none => simp
  | some m =>
    obtain ⟨p, a, v, s, rfl⟩ := SpecRegexp_submatch name m h
    simp

theorem specRow_eq (name : String) : specRow name = Built.ok (specRowOf name) := by
  unfold specRow specRowOf MatchString
  cases h : FindStringSubmatch SpecRegexp name with
  | none => simp
  | some m =>
    obtain ⟨p, a, v, s, rfl⟩ := SpecRegexp_submatch name m h
    simp

theorem specRows_eq (names : List String) (rows : List exportCSVRow) :
    specRows rows names = Built.ok (rows ++ names.filterMap specRowOf) := by
  induction names generalizing rows with
  | nil => simp [specRows]
  | cons name rest ih =>
    cases h : specRowOf name with
    | none => simp [specRows, specRow_eq, h, ih]
    | some row => simp [specRows, specRow_eq, h, ih]

theorem exportCsvLoop_eq (c : Lister String) (filter : String) (args : List String)
    (rows : List exportCSVRow)
    (h : ∀ parent ∈ args,
      (c.ListSpecs ((FindStringSubmatch VersionRegexp parent).getD []) filter).2 = none) :
    exportCsvLoop c filter rows args =
      Built.ok (rows ++
        (args.map fun parent =>
          (c.ListSpecs ((FindStringSubmatch VersionRegexp parent).getD []) filter).1.filterMap
            specRowOf).flatten) := by
  induction args generalizing rows with
  | nil => simp [exportCsvLoop]
  | cons parent rest ih =>
    have h1 := h parent (List.mem_cons_self _ _)
    have h2 := fun rows1 => ih rows1 (fun x hx => h x (List.mem_cons_of_mem _ hx))
    simp [exportCsvLoop, specRows_eq, h1, h2]

/-- C16: the CSV export writes one row per listed spec. When every listing
succeeds, the records written are the header `api_id, version_id, spec_id,
contents_path` followed, parent by parent in argument order and within a
parent in listing order, by one record for each spec whose name `SpecRegexp`
accepts and none for the others; the record holds the api, version and spec
IDs captured from the name and the path `$APG_REGISTRY_ADDRESS/<name>/contents`. -/
theorem exportCsv_one_row_per_spec :
    (∀ (c : Lister String) (filter : String) (args : List String),
      (∀ parent ∈ args,
        (c.ListSpecs ((FindStringSubmatch VersionRegexp parent).getD []) filter).2 = none) →
      exportCsvRun c filter args =
        Built.ok (["api_id", "version_id", "spec_id", "contents_path"] ::
          ((args.map fun parent =>
            (c.ListSpecs ((FindStringSubmatch VersionRegexp parent).getD [])
              filter).1.filterMap specRowOf).flatten).map csvRecord)) ∧
    (∀ name : String, specRowOf name = none ↔ MatchString SpecRegexp name = false) ∧
    (∀ (name : String) (m : List String), FindStringSubmatch SpecRegexp name = some m →
      ∃ p a v s, m = [name, p, a, v, s] ∧
        specRowOf name = some
          { ApiID := a, VersionID := v, SpecID := s,
            ContentsPath := "$APG_REGISTRY_ADDRESS/" ++ name ++ "/contents" } ∧
        csvRecord
          { ApiID := a, VersionID := v, SpecID := s,
            ContentsPath := "$APG_REGISTRY_ADDRESS/" ++ name ++ "/contents" }
          = [a, v, s, "$APG_REGISTRY_ADDRESS/" ++ name ++ "/contents"]) ∧
    specRowOf "projects/p/apis/a/versions/v1/specs/openapi.yaml" = some
      { ApiID := "a", VersionID := "v1", SpecID := "openapi.yaml",
        ContentsPath :=
          "$APG_REGISTRY_ADDRESS/projects/p/apis/a/versions/v1/specs/openapi.yaml/contents" } := by
  refine ⟨fun c filter args h => ?_, specRowOf_eq_none_iff, fun name m h => ?_, by decide⟩
  · simp [exportCsvRun, exportCsvLoop_eq c filter args [] h]
  · obtain ⟨p, a, v, s, rfl⟩ := SpecRegexp_submatch name m h
    exact ⟨p, a, v, s, rfl, by simp [specRowOf, h], rfl⟩

/-- C16 on a registry whose version `projects/p/apis/a/versions/v1` lists two
specs and one name that is not a spec name. -/
theorem exportCsv_one_row_per_spec_witness :
    exportCsvRun demoSpecLister "" ["projects/p/apis/a/versions/v1"] =
      Built.ok (["api_id", "version_id", "spec_id", "contents_path"] ::
        ((["projects/p/apis/a/versions/v1"].map fun parent =>
          (demoSpecLister.ListSpecs ((FindStringSubmatch VersionRegexp parent).getD [])
            "").1.filterMap specRowOf).flatten).map csvRecord) :=
  exportCsv_one_row_per_spec.1 demoSpecLister "" ["projects/p/apis/a/versions/v1"]
    (by decide)

/-! ## Labels over GraphQL: the pages of `resolveLabels` -/

theorem getLast?_cons_getD {α : Type} (a d : α) (l : List α) :
    ((a :: l).getLast?).getD d = (l.getLast?).getD a := by
  cases l with
  | nil => rfl
  | cons x t =>
    rw [List.getLast?_cons_cons]
    cases h : (x :: t).getLast? with
    | none => simp at h
    | some y => rfl

theorem labelsLoop_spec {σ : Type} (srv : LabelService σ) (pageSize : Int) (fuel : Nat)
    (s r : LabelsLoop σ) (h : labelsLoop srv pageSize fuel s = some r) :
    ∃ new : List (Option ListLabelsResponse),
      r.fetched = s.fetched ++ new ∧
      r.edges = s.edges ++ ((new.map GetLabels).flatten).map labelRep ∧
      pagedByRule pageSize s.edges.length new = true ∧
      r.response = (new.getLast?).getD s.response ∧
      ((r.edges.length : Int) < pageSize → GetNextPageToken r.response = "") := by
  induction fuel generalizing s with
  | zero =>
    by_cases hlt : (s.edges.length : Int) < pageSize
    · simp [labelsLoop, hlt] at h
    · simp only [labelsLoop, hlt, if_false, Option.some.injEq] at h
      subst h
      exact ⟨[], by simp, by simp, by simp [pagedByRule, hlt], rfl, fun h1 => absurd h1 hlt⟩
  | succ fuel ih =>
    by_cases hlt : (s.edges.length : Int) < pageSize
    · by_cases htok : (s.fetch srv).req.PageToken = ""
      · simp only [labelsLoop, hlt, htok, if_true, Option.some.injEq] at h
        subst h
        have htok1 : GetNextPageToken (srv.ListLabels s.st s.req).1 = "" := htok
        refine ⟨[(srv.ListLabels s.st s.req).1], rfl, ?_, ?_, rfl, fun _ => htok1⟩
        · simp [LabelsLoop.fetch]
        · simp [pagedByRule, hlt, htok1]
      · simp only [labelsLoop, hlt, htok, if_true, if_false] at h
        obtain ⟨new, hf, he, hp, hr, hc⟩ := ih (s.fetch srv) h
        have htok1 : GetNextPageToken (srv.ListLabels s.st s.req).1 ≠ "" := htok
        have hlen : (s.fetch srv).edges.length
            = s.edges.length + (GetLabels (srv.ListLabels s.st s.req).1).length := by
          simp [LabelsLoop.fetch]
        refine ⟨(srv.ListLabels s.st s.req).1 :: new, ?_, ?_, ?_, ?_, hc⟩
        · rw [hf]; simp [LabelsLoop.fetch]
        · rw [he]; simp [LabelsLoop.fetch]
        · rw [hlen] at hp
          simp [pagedByRule, hlt, htok1, hp]
        · rw [hr, getLast?_cons_getD]
          rfl
    · simp only [labelsLoop, hlt, if_false, Option.some.injEq] at h
      subst h
      exact ⟨[], by simp, by simp, by simp [pagedByRule, hlt], rfl, fun h1 => absurd h1 hlt⟩

theorem labelsLoop_ends {σ : Type} (srv : LabelService σ) (pageSize : Int)
    (hprog : ∀ st req, GetNextPageToken (srv.ListLabels st req).1 ≠ "" →
      GetLabels (srv.ListLabels st req).1 ≠ [])
    (fuel : Nat) (s : LabelsLoop σ) (hfuel : (pageSize - s.edges.length).toNat ≤ fuel) :
    ∃ r, labelsLoop srv pageSize fuel s = some r := by
  induction fuel generalizing s with
  | zero =>
    have hlt : ¬ (s.edges.length : Int) < pageSize := by omega
    exact ⟨s, by simp [labelsLoop, hlt]⟩
  | succ fuel ih =>
    by_cases hlt : (s.edges.length : Int) < pageSize
    · by_cases htok : (s.fetch srv).req.PageToken = ""
      · exact ⟨s.fetch srv, by simp [labelsLoop, hlt, htok]⟩
      · have hne : GetLabels (srv.ListLabels s.st s.req).1 ≠ [] := hprog _ _ htok
        have hpos : 0 < (GetLabels (srv.ListLabels s.st s.req).1).length :=
          List.length_pos.2 hne
        have hlen : (s.fetch srv).edges.length
            = s.edges.length + (GetLabels (srv.ListLabels s.st s.req).1).length := by
          simp [LabelsLoop.fetch]
        obtain ⟨r, hr⟩ := ih (s.fetch srv) (by rw [hlen]; push_cast; omega)
        exact ⟨r, by simp [labelsLoop, hlt, htok, hr]⟩
    · exact ⟨s, by simp [labelsLoop, hlt]⟩

theorem pagedByRule_nil_of_nonpos (pageSize : Int) (pages : List (Option ListLabelsResponse))
    (hps : pageSize ≤ 0) (h : pagedByRule pageSize 0 pages = true) : pages = [] := by
  cases pages with
  | nil => rfl
  | cons r rest =>
    simp only [pagedByRule, Bool.and_eq_true, decide_eq_true_eq] at h
    exact absurd h.1 (by simp only [Nat.cast_zero]; omega)

/-- C17: the pagination loop of `resolveLabels`. The page size is the `first`
argument when given and 50 otherwise. Whenever the resolver returns a
connection: its edges are the labels of the pages fetched, in order; the
pages fetched follow the rule (a page is fetched exactly while fewer than
`pageSize` edges are held and the page before, if any, carried a next-page
token), so none is fetched when `pageSize ≤ 0`; fewer than `pageSize` edges
returned means the end cursor is empty; and the end cursor is the next-page
token of the last response (empty when there was none). The resolver does
return: at once when `pageSize ≤ 0`, and within `pageSize` passes when every
page that carries a next-page token carries a label. -/
theorem resolveLabels_pages {σ : Type} (srv : LabelService σ) (st : σ) (parent : String)
    (args : ResolveArgs) :
    labelsPageSize args = (args.first).getD 50 ∧
    (∀ (fuel : Nat) (conn : LabelsConnection),
      resolveLabels none srv st parent args fuel = some (.ok conn) →
      conn.edges = ((conn.fetched.map GetLabels).flatten).map labelRep ∧
      pagedByRule (labelsPageSize args) 0 conn.fetched = true ∧
      (labelsPageSize args ≤ 0 → conn.fetched = []) ∧
      ((conn.edges.length : Int) < labelsPageSize args → conn.endCursor = "") ∧
      conn.endCursor = GetNextPageToken ((conn.fetched.getLast?).getD none)) ∧
    (labelsPageSize args ≤ 0 →
      ∀ fuel : Nat, resolveLabels none srv st parent args fuel
        = some (.ok { edges := [], endCursor := "", fetched := [] })) ∧
    ((∀ s req, GetNextPageToken (srv.ListLabels s req).1 ≠ "" →
        GetLabels (srv.ListLabels s req).1 ≠ []) →
      ∀ fuel : Nat, (labelsPageSize args).toNat ≤ fuel →
        ∃ conn, resolveLabels none srv st parent args fuel = some (.ok conn)) := by
  refine ⟨?_, ?_, ?_, ?_⟩
  · unfold labelsPageSize
    cases args.first <;> rfl
  · intro fuel conn h
    unfold resolveLabels at h
    simp only at h
    cases hl : labelsLoop srv (labelsPageSize args) fuel
        { st := st, req := labelsRequest parent args, edges := [], response := none,
          fetched := [] } with
    | none => simp [hl] at h
    | some r =>
      simp only [hl, Option.some.injEq, Except.ok.injEq] at h
      subst h
      obtain ⟨new, hf, he, hp, hr, hc⟩ := labelsLoop_spec srv _ fuel _ r hl
      simp only [List.nil_append, List.length_nil] at hf he hp
      refine ⟨by rw [he, hf], by rw [hf]; exact hp, fun hps => ?_, hc, ?_⟩
      · rw [hf]
        exact pagedByRule_nil_of_nonpos _ _ hps hp
      · show GetNextPageToken r.response = GetNextPageToken ((r.fetched.getLast?).getD none)
        rw [hr, hf]
  · intro hps fuel
    have hlt : ¬ (0 : Int) < labelsPageSize args := by omega
    unfold resolveLabels
    cases fuel with
    | zero => simp [labelsLoop, hlt, GetNextPageToken]
    | succ n => simp [labelsLoop, hlt, GetNextPageToken]
  · intro hprog fuel hfuel
    obtain ⟨r, hr⟩ := labelsLoop_ends srv (labelsPageSize args) hprog fuel
      { st := st, req := labelsRequest parent args, edges := [], response := none,
        fetched := [] } (by simpa using hfuel)
    exact ⟨{ edges := r.edges, endCursor := GetNextPageToken r.response,
             fetched := r.fetched }, by simp [resolveLabels, hr]⟩

/-- C17 on three pages of two labels with `first` = 3: two pages are fetched,
four edges are returned and the end cursor is the token `t2` of the second. -/
theorem resolveLabels_pages_witness :
    resolveLabels none (pagedService demoPages) 0 "projects/p" demoArgs 10
      = some (.ok demoConnection) ∧
    (demoConnection.edges = ((demoConnection.fetched.map GetLabels).flatten).map labelRep ∧
      pagedByRule (labelsPageSize demoArgs) 0 demoConnection.fetched = true ∧
      (labelsPageSize demoArgs ≤ 0 → demoConnection.fetched = []) ∧
      ((demoConnection.edges.length : Int) < labelsPageSize demoArgs →
        demoConnection.endCursor = "") ∧
      demoConnection.endCursor
        = GetNextPageToken ((demoConnection.fetched.getLast?).getD none)) :=
  ⟨by rfl,
   (resolveLabels_pages (pagedService demoPages) 0 "projects/p" demoArgs).2.1 10
      demoConnection (by rfl)⟩

end Registry
